import Mathlib

namespace PhotoFolio

/-! # Asset pipeline data model

Shallow embedding of the photo_folio asset build pipeline and of the
browser viewer helpers.  The pipeline itself (gallery discovery, the
incremental gate, the image codec, manifest writing, orphan
reconciliation and configuration synchronisation) is specified by the
repository's design documents; its state is the filesystem, modelled
here as finite association maps. -/

/-- Size classes of the asset pipeline: name and target longest-edge
pixel length (thumb 400, medium 800, full 1600). -/
def SIZES : List (String × Nat) := [("thumb", 400), ("medium", 800), ("full", 1600)]

/-- Modelled from the spec: orientation derived from original
width/height (wider = landscape, taller = portrait, equal = square);
the Python helper get_orientation is not under src. -/
def get_orientation (width height : Nat) : String :=
  if height < width then "landscape"
  else if width < height then "portrait"
  else "square"

/-- The builder's resize_image (quoted in src/docs/layout-organic.md):
the longest edge is scaled to exactly the target — also upscaling a
smaller source — with the shorter edge proportional (truncated); only
an image whose longest edge already equals the target is returned
unchanged. -/
def resize_image (width height target : Nat) : Nat × Nat :=
  if height ≤ width then
    if width = target then (width, height)
    else (target, height * target / width)
  else
    if height = target then (width, height)
    else (width * target / height, target)

/-- Modelled from the spec: one re-encoded variant per configured size
class, as (size name, output dimensions). -/
def imageVariants (width height : Nat) : List (String × Nat × Nat) :=
  SIZES.map fun s => (s.1, resize_image width height s.2)

/-- A key identifying one OutputVariant file: the (gallery id,
size-class, image id) triple of the spec's data model. -/
structure VKey where
  gal : String
  size : String
  img : String
deriving DecidableEq

/-- The generated-output tree: a finite map from variant keys to
modification times. -/
abbrev OutFS := List (VKey × Nat)

/-- Modification time of an output file, `none` when missing. -/
def fsLookup : OutFS → VKey → Option Nat
  | [], _ => none
  | e :: rest, k => if e.1 = k then some e.2 else fsLookup rest k

/-- Write (create or overwrite) one output file with the given mtime. -/
def fsSet : OutFS → VKey → Nat → OutFS
  | [], k, t => [(k, t)]
  | e :: rest, k, t => if e.1 = k then (k, t) :: rest else e :: fsSet rest k t

/-- The expected OutputVariant keys of one image: one per size class. -/
def expectedKeys (gal imgId : String) : List VKey :=
  SIZES.map fun s => ⟨gal, s.1, imgId⟩

/-- Write all the given output files with the given mtime. -/
def writeOutputs : OutFS → List VKey → Nat → OutFS
  | fs, [], _ => fs
  | fs, k :: ks, t => writeOutputs (fsSet fs k t) ks t

/-- Modelled from the spec: IncrementalGate's staleness check — true
(stale) when an expected output is missing or the source mtime is
strictly newer than an existing output's mtime; the Python
needs_processing is not under src. -/
def needs_processing (fs : OutFS) (sourceMtime : Nat) (outputs : List VKey) : Bool :=
  outputs.any fun k =>
    match fsLookup fs k with
    | none => true
    | some m => decide (m < sourceMtime)

/-- Modelled from the spec: the gate with the force flag, which makes
every image stale unconditionally. -/
def incrementalGate (force : Bool) (fs : OutFS) (sourceMtime : Nat) (outputs : List VKey) : Bool :=
  force || needs_processing fs sourceMtime outputs

/-- Per-image manifest entry. -/
structure ImageRecord where
  id : String
  orientation : String
  width : Nat
  height : Nat
deriving DecidableEq

/-- Per-gallery manifest document: ordered image list, generation
timestamp, size-class table. -/
structure Manifest where
  images : List ImageRecord
  generated : Nat
  sizes : List (String × Nat)
deriving DecidableEq

/-- The manifest files on disk: a finite map from paths to documents. -/
abbrev ManifestStore := List (String × Manifest)

/-- Manifest file name used by the repository (the viewer fetches
assets.path ++ galleryId ++ "/" ++ assets.manifestFile). -/
def MANIFEST_FILE : String := "images.json"

/-- The path of a gallery's manifest document. -/
def manifestPath (outputRoot galleryId : String) : String :=
  outputRoot ++ galleryId ++ "/" ++ MANIFEST_FILE

/-- The manifest at a path, `none` when missing. -/
def lookupManifest : ManifestStore → String → Option Manifest
  | [], _ => none
  | e :: rest, p => if e.1 = p then some e.2 else lookupManifest rest p

/-- Remove every manifest entry at a path. -/
def storeErase : ManifestStore → String → ManifestStore
  | [], _ => []
  | e :: rest, p => if e.1 = p then storeErase rest p else e :: storeErase rest p

/-- Write (create or overwrite) the manifest document at a path. -/
def storeSet (store : ManifestStore) (p : String) (m : Manifest) : ManifestStore :=
  storeErase store p ++ [(p, m)]

/-- The image list of the manifest at a path, `[]` when missing. -/
def manifestImagesAt (store : ManifestStore) (p : String) : List ImageRecord :=
  (lookupManifest store p).elim [] Manifest.images

/-- First record with the given image id, `none` when absent. -/
def findRecord : List ImageRecord → String → Option ImageRecord
  | [], _ => none
  | r :: rest, i => if r.id = i then some r else findRecord rest i

/-- A source image: stable id (base name), last-modified time, pixel
dimensions, and whether it decodes (a corrupt or unsupported file has
decodable = false). -/
structure SrcImage where
  id : String
  mtime : Nat
  width : Nat
  height : Nat
  decodable : Bool
deriving DecidableEq

/-- Outcome of one image job. -/
inductive Outcome where
  | processed (record : ImageRecord)
  | skipped
  | error (id message : String)
deriving DecidableEq

/-- The manifest record freshly created when an image is processed. -/
def freshRecord (img : SrcImage) : ImageRecord :=
  ⟨img.id, get_orientation img.width img.height, img.width, img.height⟩

/-- Modelled from the spec: process one source image — skip when the
gate says fresh (unless forced), otherwise either write one output per
size class at the current time and return its record, or catch the
decode failure and report an error outcome carrying the image id; the
Python process_image is not under src. -/
def process_image (force : Bool) (fs : OutFS) (gal : String) (img : SrcImage) (now : Nat) : Outcome × OutFS :=
  if force = false ∧ needs_processing fs img.mtime (expectedKeys gal img.id) = false then
    (.skipped, fs)
  else if img.decodable then
    (.processed (freshRecord img), writeOutputs fs (expectedKeys gal img.id) now)
  else
    (.error img.id "decode failure", fs)

/-- The manifest record contributed by one outcome: processed images
contribute their fresh record, skipped images carry their previous
record forward unchanged, errors contribute nothing. -/
def carriedRecord (oldRecs : List ImageRecord) (o : Outcome) (img : SrcImage) : Option ImageRecord :=
  match o with
  | .processed r => some r
  | .skipped => findRecord oldRecs img.id
  | .error _ _ => none

/-- Run the image jobs of one gallery in order, threading the output
tree and collecting the manifest records and the outcomes. -/
def processList (force : Bool) (now : Nat) (gal : String) (oldRecs : List ImageRecord) : OutFS → List SrcImage → OutFS × List ImageRecord × List Outcome
  | fs, [] => (fs, [], [])
  | fs, img :: rest =>
    let step := process_image force fs gal img now
    let tail := processList force now gal oldRecs step.2 rest
    (tail.1, (carriedRecord oldRecs step.1 img).toList ++ tail.2.1, step.1 :: tail.2.2)

/-- An output entry is an orphan of a gallery when it belongs to the
gallery and its image id is not among the current source ids. -/
def isOrphan (gal : String) (validIds : List String) (e : VKey × Nat) : Bool :=
  decide (e.1.gal = gal) && !(decide (e.1.img ∈ validIds))

/-- The builder's clean_orphans (quoted in
src/docs/layout-organic.md): delete every output of the gallery whose
stem is not a current source id, returning the number of deleted files
floor-divided by the number of size classes (`removed // len(SIZES)`). -/
def clean_orphans (fs : OutFS) (gal : String) (validIds : List String) : OutFS × Nat :=
  (fs.filter (fun e => !(isOrphan gal validIds e)),
   (fs.filter (isOrphan gal validIds)).length / SIZES.length)

/-- Result of building one gallery. -/
structure GalleryResult where
  fs : OutFS
  store : ManifestStore
  outs : List Outcome

/-- Modelled from the spec: build one gallery — gate and process every
source image, reconcile the gallery's orphans, and rewrite the
gallery's manifest with the collected records, a fresh timestamp and
the size table; the Python process_gallery is not under src. -/
def runGallery (force : Bool) (now : Nat) (root gal : String) (imgs : List SrcImage) (fs : OutFS) (store : ManifestStore) : GalleryResult :=
  let oldRecs := manifestImagesAt store (manifestPath root gal)
  let step := processList force now gal oldRecs fs imgs
  let cleaned := clean_orphans step.1 gal (imgs.map SrcImage.id)
  { fs := cleaned.1,
    store := storeSet store (manifestPath root gal) ⟨step.2.1, now, SIZES⟩,
    outs := step.2.2 }

/-- Aggregate run summary. -/
structure Summary where
  processed : Nat
  skipped : Nat
  errors : Nat
deriving DecidableEq

/-- Outcome classifiers. -/
def isProcessed : Outcome → Bool
  | .processed _ => true
  | _ => false

def isSkipped : Outcome → Bool
  | .skipped => true
  | _ => false

def isError : Outcome → Bool
  | .error _ _ => true
  | _ => false

/-- Fold the outcome stream into the run summary. -/
def summarize (outs : List Outcome) : Summary :=
  ⟨outs.countP isProcessed, outs.countP isSkipped, outs.countP isError⟩

/-- Modelled from the spec: exit code 0 exactly when no per-image
error occurred. -/
def exit_code (s : Summary) : Nat :=
  if s.errors = 0 then 0 else 1

/-- Result of a whole build run. -/
structure RunResult where
  fs : OutFS
  store : ManifestStore
  outs : List Outcome

/-- Build every discovered gallery in order. -/
def runGalleries (force : Bool) (now : Nat) (root : String) : OutFS → ManifestStore → List (String × List SrcImage) → RunResult
  | fs, store, [] => ⟨fs, store, []⟩
  | fs, store, g :: gs =>
    let r := runGallery force now root g.1 g.2 fs store
    let rest := runGalleries force now root r.fs r.store gs
    ⟨rest.fs, rest.store, r.outs ++ rest.outs⟩

/-- Modelled from the spec: OrphanReconciler's across-run pass — drop
every output and manifest of a gallery that is no longer discovered;
the Python clean_orphan_galleries is not under src. -/
def cleanupGalleries (fs : OutFS) (store : ManifestStore) (root : String) (names : List String) : OutFS × ManifestStore :=
  (fs.filter (fun e => decide (e.1.gal ∈ names)),
   store.filter (fun e => names.any fun g => decide (manifestPath root g = e.1)))

/-- Modelled from the spec: one whole build run over the discovered
galleries, followed by the orphan-gallery cleanup. -/
def runPipeline (force : Bool) (now : Nat) (root : String) (galleries : List (String × List SrcImage)) (fs : OutFS) (store : ManifestStore) : RunResult :=
  let r := runGalleries force now root fs store galleries
  let c := cleanupGalleries r.fs r.store root (galleries.map Prod.fst)
  ⟨c.1, c.2, r.outs⟩

/-! # Configuration synchronizer -/

/-- One gallery entry of the persisted site configuration: display
name, sort order, an optional layout override, and any other
user-owned fields (such as the per-gallery randomOrder override of
feature 005) as a field bag. -/
structure GalleryEntry where
  displayName : String
  order : Nat
  layout : Option String
  extra : List (String × String)
deriving DecidableEq

/-- The persisted configuration document: the gallery-entries map plus
the sibling sections (theming, panel text, breakpoints) the
synchronizer does not own. -/
structure ConfigDoc where
  items : List (String × GalleryEntry)
  siblings : List (String × String)
deriving DecidableEq

/-- First entry with the given gallery id, `none` when absent. -/
def lookupEntry : List (String × GalleryEntry) → String → Option GalleryEntry
  | [], _ => none
  | e :: rest, i => if e.1 = i then some e.2 else lookupEntry rest i

/-- Python str.title() over a character list: a letter that follows a
non-letter is upper-cased, every other letter lower-cased; the flag
carries whether the previous character was a letter. -/
def titleChars : Bool → List Char → List Char
  | _, [] => []
  | prevAlpha, c :: cs =>
    if c.isAlpha then
      (if prevAlpha then c.toLower else c.toUpper) :: titleChars true cs
    else
      c :: titleChars false cs

/-- Python str.title(). -/
def str_title (s : String) : String :=
  String.mk (titleChars false s.data)

/-- The builder's generate_display_name (quoted in
src/docs/layout-organic.md): underscores and hyphens replaced with
spaces, then str.title(). -/
def generate_display_name (galleryName : String) : String :=
  str_title ((galleryName.replace "_" " ").replace "-" " ")

/-- Build the new gallery-entries map for the discovered ids starting
at order value `k`, as the builder's update_config_galleries does
(quoted in src/docs/layout-organic.md): a known id keeps only its
display name and its layout override, with its order rewritten — every
other user field is dropped — and an unknown id gets a generated
display name and the next order value. -/
def syncItemsGo (old : List (String × GalleryEntry)) : List String → Nat → List (String × GalleryEntry)
  | [], _ => []
  | i :: rest, k =>
    (match lookupEntry old i with
     | some e => (i, ⟨e.displayName, k, e.layout, []⟩)
     | none => (i, ⟨generate_display_name i, k, none, []⟩)) :: syncItemsGo old rest (k + 1)

/-- The builder's update_config_galleries (quoted in
src/docs/layout-organic.md): rebuild the gallery-entries map from the
ordered discovered ids (orders numbered from 1), touching no sibling
section. -/
def update_config_galleries (doc : ConfigDoc) (discovered : List String) : ConfigDoc :=
  { doc with items := syncItemsGo doc.items discovered 1 }

/-! # Viewer helpers

The browser-side code present in the repository: the Fisher-Yates
shuffle of script.js / shuffle.js and the two layout algorithms of
web/src/lib/utils/layouts.  Floating-point quantities are embedded as
rationals and each Math.random() draw is an explicit input. -/

/-- Exchange the elements at positions i and j (identity when either
index is out of range, which the shuffle loop never produces). -/
def listSwap {α : Type} (xs : List α) (i j : Nat) : List α :=
  match xs.get? i, xs.get? j with
  | some a, some b => (xs.set i b).set j a
  | _, _ => xs

/-- The shuffle loop: for i from the high index down to 1, swap
position i with the drawn position rand i. -/
def fyLoop {α : Type} (rand : Nat → Nat) : List α → Nat → List α
  | xs, 0 => xs
  | xs, i + 1 => fyLoop rand (listSwap xs (i + 1) (rand (i + 1))) i

/-- The viewer's Fisher-Yates shuffle: copies the input and swaps each
position i (from the end down to 1) with a drawn position
`rand i = Math.floor(Math.random() * (i + 1))`. -/
def shuffle {α : Type} (array : List α) (rand : Nat → Nat) : List α :=
  fyLoop rand array (array.length - 1)

/-- The slice of a manifest image the layout algorithms read. -/
structure LayoutImage where
  id : String
  orientation : String

/-- The breakpoint layout the viewer derives from the window width. -/
structure BreakpointLayout where
  columns : Nat
  photoSize : ℚ
  squareSize : ℚ

/-- The gallery section of the site configuration read by layouts. -/
structure GalleryCfg where
  topMargin : ℚ
  leftMargin : ℚ
  rightMargin : ℚ
  bottomMargin : ℚ

/-- The organic layout's configuration. -/
structure OrganicCfg where
  offsetMin : ℚ
  offsetMax : ℚ
  rotationMin : ℚ
  rotationMax : ℚ
  dealingMin : ℚ
  dealingMax : ℚ
  dealingDelay : ℚ
  spacing : ℚ

/-- The masonry layout's configuration. -/
structure MasonryCfg where
  gutter : ℚ
  dealingDelay : ℚ

/-- One position computed by the organic layout. -/
structure OrganicPosition where
  id : String
  left : ℚ
  top : ℚ
  offsetX : ℚ
  offsetY : ℚ
  size : ℚ
  rotation : ℚ
  startRotation : ℚ
  delay : ℚ

/-- One position computed by the masonry layout. -/
structure MasonryPosition where
  id : String
  left : ℚ
  top : ℚ
  size : ℚ
  width : ℚ
  height : ℚ
  delay : ℚ

/-- randomInRange: one uniform draw r in [0, 1) mapped to [lo, hi). -/
def randomInRange (r lo hi : ℚ) : ℚ :=
  r * (hi - lo) + lo

/-- The shortest-column scan over the remaining column indices,
carrying the best index and its height. -/
def shortestColumnGo (heights : List ℚ) : Nat → ℚ → List Nat → Nat
  | best, _, [] => best
  | best, minH, c :: cs =>
    let h := heights.getD c 0
    if h < minH then shortestColumnGo heights c h cs
    else shortestColumnGo heights best minH cs

/-- Find the index of the shortest column, scanning from column 1 with
column 0 as the initial best, as both layout loops do. -/
def findShortestColumn (heights : List ℚ) (columns : Nat) : Nat :=
  shortestColumnGo heights 0 (heights.getD 0 0) ((List.range columns).drop 1)

/-- Estimated height of an organic photo from its orientation. -/
def estimatedHeightOrganic (orient : String) (size : ℚ) : ℚ :=
  if orient = "landscape" then size * (67 / 100)
  else if orient = "portrait" then size * (3 / 2)
  else size

/-- The organic layout loop: index i, random-draw cursor n, column
heights; each image consumes four draws (offsetX, offsetY, end
rotation, dealing rotation). -/
def organicGo (bl : BreakpointLayout) (gc : GalleryCfg) (lc : OrganicCfg) (rng : Nat → ℚ) : List LayoutImage → Nat → Nat → List ℚ → List OrganicPosition
  | [], _, _, _ => []
  | image :: rest, i, n, heights =>
    let columnWidth : ℚ := 100 / (bl.columns : ℚ)
    let sc := findShortestColumn heights bl.columns
    let baseLeft := (sc : ℚ) * columnWidth
    let baseTop := gc.topMargin + heights.getD sc 0
    let offsetX := randomInRange (rng n) lc.offsetMin lc.offsetMax
    let offsetY := randomInRange (rng (n + 1)) lc.offsetMin lc.offsetMax
    let endRotation := randomInRange (rng (n + 2)) lc.rotationMin lc.rotationMax
    let startRotation := randomInRange (rng (n + 3)) lc.dealingMin lc.dealingMax
    let size := if image.orientation = "square" then bl.squareSize else bl.photoSize
    let estH := estimatedHeightOrganic image.orientation size
    let heights2 := heights.set sc (heights.getD sc 0 + estH + lc.spacing)
    { id := image.id, left := baseLeft + offsetX, top := baseTop + offsetY,
      offsetX := offsetX, offsetY := offsetY, size := size,
      rotation := endRotation, startRotation := startRotation,
      delay := (i : ℚ) * lc.dealingDelay } :: organicGo bl gc lc rng rest (i + 1) (n + 4) heights2

/-- computeOrganicPositions of web/src/lib/utils/layouts/organic.js. -/
def computeOrganicPositions (images : List LayoutImage) (bl : BreakpointLayout) (gc : GalleryCfg) (lc : OrganicCfg) (rng : Nat → ℚ) : List OrganicPosition :=
  organicGo bl gc lc rng images 0 0 (List.replicate bl.columns 0)

/-- The masonry layout loop: index i and column heights. -/
def masonryGo (bl : BreakpointLayout) (gc : GalleryCfg) (lc : MasonryCfg) : List LayoutImage → Nat → List ℚ → List MasonryPosition
  | [], _, _ => []
  | image :: rest, i, heights =>
    let availableWidth := 100 - gc.leftMargin - gc.rightMargin
    let columnWidth := availableWidth / (bl.columns : ℚ)
    let photoWidth := columnWidth - lc.gutter
    let sc := findShortestColumn heights bl.columns
    let left := gc.leftMargin + (sc : ℚ) * columnWidth + lc.gutter / 2
    let top := gc.topMargin + heights.getD sc 0
    let size := photoWidth
    let photoHeight :=
      if image.orientation = "landscape" then size * (67 / 100)
      else if image.orientation = "portrait" then size * (3 / 2)
      else size
    let heights2 := heights.set sc (heights.getD sc 0 + photoHeight + lc.gutter)
    { id := image.id, left := left, top := top, size := size,
      width := photoWidth, height := photoHeight,
      delay := (i : ℚ) * lc.dealingDelay } :: masonryGo bl gc lc rest (i + 1) heights2

/-- computeMasonryPositions of web/src/lib/utils/layouts/masonry.js. -/
def computeMasonryPositions (images : List LayoutImage) (bl : BreakpointLayout) (gc : GalleryCfg) (lc : MasonryCfg) : List MasonryPosition :=
  masonryGo bl gc lc images 0 (List.replicate bl.columns 0)

/-- The manifest record an unforced run contributes for one image,
as a function of the output tree the image's gate consults: skip and
carry the old record when fresh, a fresh record when stale and
decodable, nothing when the decode fails. -/
def contrib (gal : String) (gfs : OutFS) (oldRecs : List ImageRecord) (img : SrcImage) : Option ImageRecord :=
  if needs_processing gfs img.mtime (expectedKeys gal img.id) = false then
    findRecord oldRecs img.id
  else if img.decodable then some (freshRecord img)
  else none

/-! # Theorems -/

/-- C1: the gate returns stale exactly when an expected output is
missing or the source mtime is strictly newer than an existing
output's mtime, fresh otherwise; force makes every image stale. -/
theorem spec_C1 (force : Bool) (fs : OutFS) (srcMtime : Nat) (outputs : List VKey) :
    (incrementalGate force fs srcMtime outputs = true ↔
      force = true ∨ ∃ k ∈ outputs,
        fsLookup fs k = none ∨ ∃ m, fsLookup fs k = some m ∧ m < srcMtime) ∧
    (force = true → incrementalGate force fs srcMtime outputs = true) := by
  constructor
  · unfold incrementalGate needs_processing
    rw [Bool.or_eq_true, List.any_eq_true]
    constructor
    · rintro (hf | ⟨k, hk, hm⟩)
      · exact Or.inl hf
      · refine Or.inr ⟨k, hk, ?_⟩
        cases hfl : fsLookup fs k with
        | none => exact Or.inl rfl
        | some m =>
          rw [hfl] at hm
          exact Or.inr ⟨m, rfl, of_decide_eq_true hm⟩
    · rintro (hf | ⟨k, hk, hnone | ⟨m, hsome, hlt⟩⟩)
      · exact Or.inl hf
      · exact Or.inr ⟨k, hk, by rw [hnone]⟩
      · exact Or.inr ⟨k, hk, by rw [hsome]; exact decide_eq_true hlt⟩
  · intro hf
    simp [incrementalGate, hf]

/-- C1 witness: a forced gate is stale on a concrete image. -/
theorem spec_C1_witness :
    incrementalGate true [] 5 (expectedKeys "g" "a") = true :=
  (spec_C1 true [] 5 (expectedKeys "g" "a")).2 rfl

/-- The resize dimensions: the longest edge is exactly the target, an
image whose longest edge equals the target is returned unchanged, and
a strictly smaller image is upscaled, not copied. -/
theorem resize_image_spec (w h t : Nat) (hw : 0 < w) (hh : 0 < h) :
    max (resize_image w h t).1 (resize_image w h t).2 = t ∧
    (max w h = t → resize_image w h t = (w, h)) ∧
    (max w h < t → resize_image w h t ≠ (w, h)) := by
  unfold resize_image
  split_ifs with h1 h2 h3
  · refine ⟨(max_eq_left h1).trans h2, fun _ => rfl, fun hlt => absurd hlt ?_⟩
    rw [max_eq_left h1, h2]
    exact lt_irrefl t
  · have hdiv : h * t / w ≤ t := by
      calc h * t / w ≤ w * t / w := Nat.div_le_div_right (Nat.mul_le_mul_right t h1)
        _ = t := Nat.mul_div_cancel_left t hw
    refine ⟨max_eq_left hdiv, fun he => ?_, fun hlt heq => ?_⟩
    · exact absurd ((max_eq_left h1).symm.trans he) h2
    · have h5 : t = w := congrArg Prod.fst heq
      rw [max_eq_left h1] at hlt
      omega
  · have hwh : w ≤ h := le_of_lt (Nat.lt_of_not_le h1)
    refine ⟨(max_eq_right hwh).trans h3, fun _ => rfl, fun hlt => absurd hlt ?_⟩
    rw [max_eq_right hwh, h3]
    exact lt_irrefl t
  · have hwh : w ≤ h := le_of_lt (Nat.lt_of_not_le h1)
    have hdiv : w * t / h ≤ t := by
      calc w * t / h ≤ h * t / h := Nat.div_le_div_right (Nat.mul_le_mul_right t hwh)
        _ = t := Nat.mul_div_cancel_left t hh
    refine ⟨max_eq_right hdiv, fun he => ?_, fun hlt heq => ?_⟩
    · exact absurd ((max_eq_right hwh).symm.trans he) h3
    · have h5 : t = h := congrArg Prod.snd heq
      rw [max_eq_right hwh] at hlt
      omega

/-- C2 (amended: a source whose longest edge is below the target is
upscaled to the target, not copied at native size): for every
processed image, exactly one OutputVariant per configured size-class;
each variant's longest edge equals the class's target exactly (shorter
edge scaled proportionally, within rounding) and hence never exceeds
it; an image whose longest edge already equals the target is copied
unchanged, and one strictly below the target is resized, not copied. -/
theorem spec_C2 (width height : Nat) (hw : 0 < width) (hh : 0 < height) :
    ((imageVariants width height).map Prod.fst = SIZES.map Prod.fst) ∧
    ∀ s ∈ SIZES,
      (s.1, resize_image width height s.2) ∈ imageVariants width height ∧
      max (resize_image width height s.2).1 (resize_image width height s.2).2 = s.2 ∧
      max (resize_image width height s.2).1 (resize_image width height s.2).2 ≤ s.2 ∧
      (max width height = s.2 → resize_image width height s.2 = (width, height)) ∧
      (max width height < s.2 → resize_image width height s.2 ≠ (width, height)) := by
  refine ⟨rfl, fun s hs => ?_⟩
  exact ⟨List.mem_map_of_mem _ hs,
    (resize_image_spec width height s.2 hw hh).1,
    le_of_eq (resize_image_spec width height s.2 hw hh).1,
    (resize_image_spec width height s.2 hw hh).2.1,
    (resize_image_spec width height s.2 hw hh).2.2⟩

/-- C2 witness: a 3000x2000 source is downscaled to a 400 longest
edge for the thumb class, and a 300x200 source is not left at its
native size. -/
theorem spec_C2_witness :
    max (resize_image 3000 2000 400).1 (resize_image 3000 2000 400).2 = 400 ∧
    resize_image 300 200 400 ≠ (300, 200) :=
  ⟨((spec_C2 3000 2000 (by decide) (by decide)).2 ("thumb", 400) (by decide)).2.1,
   ((spec_C2 300 200 (by decide) (by decide)).2 ("thumb", 400) (by decide)).2.2.2.2 (by decide)⟩

/-- C2 counterexample: a 300x200 source at target 400 — longest edge
at or below the target — is upscaled to 400x266 rather than copied at
native size as the claim states. -/
theorem spec_C2_counterexample :
    max 300 200 ≤ 400 ∧
    resize_image 300 200 400 = (400, 266) ∧
    resize_image 300 200 400 ≠ (300, 200) :=
  ⟨by decide, by decide, by decide⟩

/-- C8: every ImageRecord produced by processing has its orientation
field consistent with its width and height: wider means landscape,
taller means portrait, equal means square. -/
theorem spec_C8 (force : Bool) (fs : OutFS) (gal : String) (img : SrcImage) (now : Nat)
    (r : ImageRecord) (fs2 : OutFS)
    (h : process_image force fs gal img now = (.processed r, fs2)) :
    (r.height < r.width ↔ r.orientation = "landscape") ∧
    (r.width < r.height ↔ r.orientation = "portrait") ∧
    (r.width = r.height ↔ r.orientation = "square") := by
  have hr : r = freshRecord img := by
    unfold process_image at h
    split_ifs at h with h1 h2
    · simp at h
    · have h3 : Outcome.processed (freshRecord img) = Outcome.processed r :=
        congrArg Prod.fst h
      simpa using h3.symm
    · simp at h
  subst hr
  simp only [freshRecord]
  unfold get_orientation
  split_ifs with hlw hwl
  · exact ⟨iff_of_true hlw rfl,
      iff_of_false (by omega) (by decide),
      iff_of_false (by omega) (by decide)⟩
  · exact ⟨iff_of_false (by omega) (by decide),
      iff_of_true hwl rfl,
      iff_of_false (by omega) (by decide)⟩
  · exact ⟨iff_of_false (by omega) (by decide),
      iff_of_false (by omega) (by decide),
      iff_of_true (by omega) rfl⟩

/-- C8 witness: a concrete 4x3 image processes to a landscape record
whose orientation agrees with its dimensions. -/
theorem spec_C8_witness :
    ((ImageRecord.mk "a" "landscape" 4 3).height < (ImageRecord.mk "a" "landscape" 4 3).width ↔
      (ImageRecord.mk "a" "landscape" 4 3).orientation = "landscape") ∧
    ((ImageRecord.mk "a" "landscape" 4 3).width < (ImageRecord.mk "a" "landscape" 4 3).height ↔
      (ImageRecord.mk "a" "landscape" 4 3).orientation = "portrait") ∧
    ((ImageRecord.mk "a" "landscape" 4 3).width = (ImageRecord.mk "a" "landscape" 4 3).height ↔
      (ImageRecord.mk "a" "landscape" 4 3).orientation = "square") :=
  spec_C8 true [] "g" ⟨"a", 0, 4, 3, true⟩ 5 ⟨"a", "landscape", 4, 3⟩
    [(⟨"g", "thumb", "a"⟩, 5), (⟨"g", "medium", "a"⟩, 5), (⟨"g", "full", "a"⟩, 5)] (by decide)

/-- Consing the m-th element onto a list with position m overwritten
by a is a permutation of consing a onto the list. -/
theorem get_cons_set_perm {α : Type} (t : List α) :
    ∀ (m : Nat) (a : α) (h : m < t.length),
      (t.get ⟨m, h⟩ :: t.set m a).Perm (a :: t) := by
  induction t with
  | nil => intro m a h; simp at h
  | cons b t' ih =>
    intro m a h
    cases m with
    | zero => exact List.Perm.swap a b t'
    | succ k =>
      have h' : k < t'.length := by simpa using h
      exact ((List.Perm.swap b (t'.get ⟨k, h'⟩) (t'.set k a)).trans
        (List.Perm.cons b (ih k a h'))).trans (List.Perm.swap a b t')

/-- Exchanging two in-range positions by a double set is a
permutation. -/
theorem set_set_get_perm {α : Type} (xs : List α) :
    ∀ (i j : Nat) (hi : i < xs.length) (hj : j < xs.length),
      ((xs.set i (xs.get ⟨j, hj⟩)).set j (xs.get ⟨i, hi⟩)).Perm xs := by
  induction xs with
  | nil => intro i j hi hj; simp at hi
  | cons a t ih =>
    intro i j hi hj
    cases i with
    | zero =>
      cases j with
      | zero => exact List.Perm.refl _
      | succ m => exact get_cons_set_perm t m a (by simpa using hj)
    | succ n =>
      cases j with
      | zero => exact get_cons_set_perm t n a (by simpa using hi)
      | succ m =>
        exact List.Perm.cons a (ih n m (by simpa using hi) (by simpa using hj))

/-- One swap of the shuffle loop is a permutation. -/
theorem listSwap_perm {α : Type} (xs : List α) (i j : Nat) : (listSwap xs i j).Perm xs := by
  unfold listSwap
  rcases hgi : xs.get? i with _ | a <;> rcases hgj : xs.get? j with _ | b <;>
    simp only [hgi, hgj]
  · exact List.Perm.refl _
  · exact List.Perm.refl _
  · exact List.Perm.refl _
  · obtain ⟨hi, ha⟩ := List.get?_eq_some.mp hgi
    obtain ⟨hj, hb⟩ := List.get?_eq_some.mp hgj
    rw [← ha, ← hb]
    exact set_set_get_perm xs i j hi hj

/-- The whole shuffle loop is a permutation. -/
theorem fyLoop_perm {α : Type} (rand : Nat → Nat) :
    ∀ (n : Nat) (xs : List α), (fyLoop rand xs n).Perm xs := by
  intro n
  induction n with
  | zero => intro xs; exact List.Perm.refl _
  | succ i ih =>
    intro xs
    exact (ih (listSwap xs (i + 1) (rand (i + 1)))).trans
      (listSwap_perm xs (i + 1) (rand (i + 1)))

/-- C9: the viewer's Fisher-Yates shuffle returns a permutation of its
input: same length and same multiset of elements; the input list
itself is a value the pure function never mutates. -/
theorem spec_C9 {α : Type} [DecidableEq α] (array : List α) (rand : Nat → Nat) :
    (shuffle array rand).Perm array ∧
    (shuffle array rand).length = array.length ∧
    ∀ a : α, (shuffle array rand).count a = array.count a := by
  have hp : (shuffle array rand).Perm array := fyLoop_perm rand (array.length - 1) array
  exact ⟨hp, hp.length_eq, fun a => hp.count_eq a⟩

/-- The organic layout emits exactly the input ids in order. -/
theorem organicGo_map_id (bl : BreakpointLayout) (gc : GalleryCfg) (lc : OrganicCfg)
    (rng : Nat → ℚ) :
    ∀ (imgs : List LayoutImage) (i n : Nat) (heights : List ℚ),
      (organicGo bl gc lc rng imgs i n heights).map OrganicPosition.id =
        imgs.map LayoutImage.id := by
  intro imgs
  induction imgs with
  | nil => intro i n heights; rfl
  | cons img rest ih => intro i n heights; simp [organicGo, ih]

/-- The masonry layout emits exactly the input ids in order. -/
theorem masonryGo_map_id (bl : BreakpointLayout) (gc : GalleryCfg) (lc : MasonryCfg) :
    ∀ (imgs : List LayoutImage) (i : Nat) (heights : List ℚ),
      (masonryGo bl gc lc imgs i heights).map MasonryPosition.id =
        imgs.map LayoutImage.id := by
  intro imgs
  induction imgs with
  | nil => intro i heights; rfl
  | cons img rest ih => intro i heights; simp [masonryGo, ih]

/-- C10: with at least one column, each layout algorithm returns
exactly one position per input image, in order, with matching ids. -/
theorem spec_C10 (images : List LayoutImage) (bl : BreakpointLayout) (gc : GalleryCfg)
    (oc : OrganicCfg) (mc : MasonryCfg) (rng : Nat → ℚ) (hcols : 1 ≤ bl.columns) :
    (computeOrganicPositions images bl gc oc rng).map OrganicPosition.id =
      images.map LayoutImage.id ∧
    (computeMasonryPositions images bl gc mc).map MasonryPosition.id =
      images.map LayoutImage.id :=
  ⟨organicGo_map_id bl gc oc rng images 0 0 (List.replicate bl.columns 0),
   masonryGo_map_id bl gc mc images 0 (List.replicate bl.columns 0)⟩

/-- C10 witness: both layouts on a concrete two-image gallery with two
columns return the two ids in order. -/
theorem spec_C10_witness :
    (computeOrganicPositions [⟨"a", "landscape"⟩, ⟨"b", "square"⟩] ⟨2, 10, 8⟩ ⟨4, 1, 1, 1⟩
        ⟨-2, 2, -5, 5, -20, 20, 1 / 50, 2⟩ (fun _ => 0)).map OrganicPosition.id =
      ["a", "b"] ∧
    (computeMasonryPositions [⟨"a", "landscape"⟩, ⟨"b", "square"⟩] ⟨2, 10, 8⟩ ⟨4, 1, 1, 1⟩
        ⟨3 / 2, 1 / 50⟩).map MasonryPosition.id = ["a", "b"] :=
  spec_C10 [⟨"a", "landscape"⟩, ⟨"b", "square"⟩] ⟨2, 10, 8⟩ ⟨4, 1, 1, 1⟩
    ⟨-2, 2, -5, 5, -20, 20, 1 / 50, 2⟩ ⟨3 / 2, 1 / 50⟩ (fun _ => 0) (by decide)

/-- The synchronized entries map has exactly the discovered ids as
keys, in discovery order. -/
theorem syncItemsGo_map_fst (old : List (String × GalleryEntry)) :
    ∀ (d : List String) (k : Nat), (syncItemsGo old d k).map Prod.fst = d := by
  intro d
  induction d with
  | nil => intro k; rfl
  | cons i rest ih =>
    intro k
    cases h : lookupEntry old i <;> simp [syncItemsGo, h, ih]

/-- An id absent from discovery has no synchronized entry. -/
theorem syncItemsGo_lookup_not_mem (old : List (String × GalleryEntry)) :
    ∀ (d : List String) (k : Nat) (i : String), i ∉ d →
      lookupEntry (syncItemsGo old d k) i = none := by
  intro d
  induction d with
  | nil => intro k i _; rfl
  | cons j rest ih =>
    intro k i hni
    have hij : j ≠ i := fun he => hni (he ▸ List.mem_cons_self j rest)
    have hnr : i ∉ rest := fun hm => hni (List.mem_cons_of_mem j hm)
    cases h : lookupEntry old j <;>
      simp [syncItemsGo, h, lookupEntry, hij, ih (k + 1) i hnr]

/-- A discovered id with an existing entry keeps its display name and
layout override, has its order rewritten to the discovery position,
and loses every other user field. -/
theorem syncItemsGo_lookup_some (old : List (String × GalleryEntry)) :
    ∀ (d : List String) (k : Nat) (i : String) (e : GalleryEntry), i ∈ d →
      lookupEntry old i = some e →
      lookupEntry (syncItemsGo old d k) i =
        some ⟨e.displayName, k + List.indexOf i d, e.layout, []⟩ := by
  intro d
  induction d with
  | nil => intro k i e hm; exact absurd hm (List.not_mem_nil i)
  | cons j rest ih =>
    intro k i e hm he
    by_cases hij : j = i
    · subst hij
      simp [syncItemsGo, he, lookupEntry, List.indexOf_cons_self]
    · have hmr : i ∈ rest := by
        rcases List.mem_cons.mp hm with h1 | h1
        · exact absurd h1.symm hij
        · exact h1
      have hstep : lookupEntry (syncItemsGo old (j :: rest) k) i =
          lookupEntry (syncItemsGo old rest (k + 1)) i := by
        cases h : lookupEntry old j <;>
          simp only [syncItemsGo, h, lookupEntry, if_neg hij]
      have harith : (k + 1) + List.indexOf i rest = k + (List.indexOf i rest).succ := by
        omega
      rw [hstep, ih (k + 1) i e hmr he, List.indexOf_cons_ne rest hij, harith]

/-- A newly discovered id gets a generated display name and the next
order value. -/
theorem syncItemsGo_lookup_new (old : List (String × GalleryEntry)) :
    ∀ (d : List String) (k : Nat) (i : String), i ∈ d →
      lookupEntry old i = none →
      lookupEntry (syncItemsGo old d k) i =
        some ⟨generate_display_name i, k + List.indexOf i d, none, []⟩ := by
  intro d
  induction d with
  | nil => intro k i hm; exact absurd hm (List.not_mem_nil i)
  | cons j rest ih =>
    intro k i hm he
    by_cases hij : j = i
    · subst hij
      simp [syncItemsGo, he, lookupEntry, List.indexOf_cons_self]
    · have hmr : i ∈ rest := by
        rcases List.mem_cons.mp hm with h1 | h1
        · exact absurd h1.symm hij
        · exact h1
      have hstep : lookupEntry (syncItemsGo old (j :: rest) k) i =
          lookupEntry (syncItemsGo old rest (k + 1)) i := by
        cases h : lookupEntry old j <;>
          simp only [syncItemsGo, h, lookupEntry, if_neg hij]
      have harith : (k + 1) + List.indexOf i rest = k + (List.indexOf i rest).succ := by
        omega
      rw [hstep, ih (k + 1) i hmr he, List.indexOf_cons_ne rest hij, harith]

/-- C4 (amended: a known id keeps its display name and its layout
override, but every other user field — such as feature 005's
per-gallery randomOrder — is dropped): the synchronized
gallery-entries map has exactly the discovered ids as keys; a known
id keeps its display name and layout with its order rewritten to the
discovery position, a new id gets a generated display name and the
next order value, a vanished id is dropped, and the sibling sections
are unchanged. -/
theorem spec_C4 (doc : ConfigDoc) (discovered : List String) :
    ((update_config_galleries doc discovered).items.map Prod.fst = discovered) ∧
    ((update_config_galleries doc discovered).siblings = doc.siblings) ∧
    (∀ i ∈ discovered, ∀ e : GalleryEntry, lookupEntry doc.items i = some e →
      lookupEntry (update_config_galleries doc discovered).items i =
        some ⟨e.displayName, 1 + List.indexOf i discovered, e.layout, []⟩) ∧
    (∀ i ∈ discovered, lookupEntry doc.items i = none →
      lookupEntry (update_config_galleries doc discovered).items i =
        some ⟨generate_display_name i, 1 + List.indexOf i discovered, none, []⟩) ∧
    (∀ i : String, i ∉ discovered →
      lookupEntry (update_config_galleries doc discovered).items i = none) :=
  ⟨syncItemsGo_map_fst doc.items discovered 1, rfl,
   fun i hm e he => syncItemsGo_lookup_some doc.items discovered 1 i e hm he,
   fun i hm he => syncItemsGo_lookup_new doc.items discovered 1 i hm he,
   fun i hni => syncItemsGo_lookup_not_mem doc.items discovered 1 i hni⟩

/-- C4 witness: syncing a document knowing gallery bw (with a user
display name, a layout override and a randomOrder override) against
discovery of bw then color keeps bw's name and layout with order 1,
generates color's entry with order 2, and drops the vanished gallery
old. -/
theorem spec_C4_witness :
    lookupEntry (update_config_galleries
        ⟨[("bw", ⟨"The B+W", 7, some "masonry", [("randomOrder", "false")]⟩),
          ("old", ⟨"Old", 9, none, []⟩)], [("theme", "dark")]⟩
        ["bw", "color"]).items "bw" =
      some ⟨"The B+W", 1 + List.indexOf "bw" ["bw", "color"], some "masonry", []⟩ ∧
    lookupEntry (update_config_galleries
        ⟨[("bw", ⟨"The B+W", 7, some "masonry", [("randomOrder", "false")]⟩),
          ("old", ⟨"Old", 9, none, []⟩)], [("theme", "dark")]⟩
        ["bw", "color"]).items "color" =
      some ⟨generate_display_name "color", 1 + List.indexOf "color" ["bw", "color"],
        none, []⟩ ∧
    lookupEntry (update_config_galleries
        ⟨[("bw", ⟨"The B+W", 7, some "masonry", [("randomOrder", "false")]⟩),
          ("old", ⟨"Old", 9, none, []⟩)], [("theme", "dark")]⟩
        ["bw", "color"]).items "old" = none :=
  ⟨(spec_C4 ⟨[("bw", ⟨"The B+W", 7, some "masonry", [("randomOrder", "false")]⟩),
      ("old", ⟨"Old", 9, none, []⟩)], [("theme", "dark")]⟩ ["bw", "color"]).2.2.1 "bw"
      (by simp) ⟨"The B+W", 7, some "masonry", [("randomOrder", "false")]⟩
      (by simp [lookupEntry]),
   (spec_C4 ⟨[("bw", ⟨"The B+W", 7, some "masonry", [("randomOrder", "false")]⟩),
      ("old", ⟨"Old", 9, none, []⟩)], [("theme", "dark")]⟩ ["bw", "color"]).2.2.2.1 "color"
      (by simp) (by simp [lookupEntry]),
   (spec_C4 ⟨[("bw", ⟨"The B+W", 7, some "masonry", [("randomOrder", "false")]⟩),
      ("old", ⟨"Old", 9, none, []⟩)], [("theme", "dark")]⟩ ["bw", "color"]).2.2.2.2 "old"
      (by simp)⟩

/-- C4 counterexample: a previously present gallery with a user field
other than the layout override — feature 005's per-gallery randomOrder
— does not keep that field across a sync: the rebuilt entry's field
bag is empty rather than the original one. -/
theorem spec_C4_counterexample :
    lookupEntry (update_config_galleries
        ⟨[("bw", ⟨"The BW", 7, some "masonry", [("randomOrder", "false")]⟩)], []⟩
        ["bw"]).items "bw" =
      some ⟨"The BW", 1, some "masonry", []⟩ ∧
    (GalleryEntry.mk "The BW" 1 (some "masonry") []).extra ≠ [("randomOrder", "false")] :=
  ⟨by decide, by decide⟩

/-- Keeping and dropping by one predicate splits a list's length. -/
theorem length_filter_not {α : Type} (p : α → Bool) :
    ∀ l : List α,
      (l.filter p).length + (l.filter fun a => !(p a)).length = l.length := by
  intro l
  induction l with
  | nil => rfl
  | cons a t ih => cases hp : p a <;> simp [List.filter_cons, hp] <;> omega

/-- C6 (amended: the within-gallery pass returns the number of files
it removed floor-divided by the number of size classes — which equals
the distinct orphaned-id count only when every orphan still has one
file per size class — not the distinct-id count in general): running
the orphan reconciler twice with no filesystem change in between
removes files only on the first call; the second within-gallery pass
leaves the tree unchanged and reports zero, and the across-run gallery
cleanup is likewise idempotent. -/
theorem spec_C6 (fs : OutFS) (gal : String) (validIds : List String)
    (store : ManifestStore) (root : String) (names : List String) :
    (clean_orphans (clean_orphans fs gal validIds).1 gal validIds =
      ((clean_orphans fs gal validIds).1, 0)) ∧
    ((clean_orphans fs gal validIds).2 =
      (fs.length - (clean_orphans fs gal validIds).1.length) / SIZES.length) ∧
    (cleanupGalleries (cleanupGalleries fs store root names).1
        (cleanupGalleries fs store root names).2 root names =
      cleanupGalleries fs store root names) := by
  refine ⟨?_, ?_, ?_⟩
  · unfold clean_orphans
    rw [Prod.mk.injEq]
    constructor
    · rw [List.filter_filter]
      simp
    · rw [List.filter_filter]
      simp
  · have hsum := length_filter_not (isOrphan gal validIds) fs
    have h2 : (fs.filter (isOrphan gal validIds)).length =
        fs.length - (fs.filter fun e => !(isOrphan gal validIds e)).length := by
      omega
    show (fs.filter (isOrphan gal validIds)).length / SIZES.length =
      (fs.length - (fs.filter fun e => !(isOrphan gal validIds e)).length) / SIZES.length
    rw [h2]
  · unfold cleanupGalleries
    rw [Prod.mk.injEq]
    constructor
    · rw [List.filter_filter]
      simp
    · rw [List.filter_filter]
      simp

/-- C6 counterexample: one orphaned image that lost all but its thumb
file is one distinct orphaned id, yet the pass reports 1 / 3 = 0 —
the raw deleted-file count floor-divided by the number of size
classes, not the distinct-id count. -/
theorem spec_C6_counterexample :
    (clean_orphans [(⟨"g", "thumb", "x"⟩, 5)] "g" []).2 = 0 ∧
    ((([((⟨"g", "thumb", "x"⟩ : VKey), 5)].filter
        (isOrphan "g" [])).map fun e => e.1.img).dedup).length = 1 :=
  ⟨by decide, by decide⟩

/-- Writing a manifest makes it the document found at its path. -/
theorem lookupManifest_storeSet_self :
    ∀ (store : ManifestStore) (p : String) (m : Manifest),
      lookupManifest (storeSet store p m) p = some m := by
  intro store
  induction store with
  | nil => intro p m; simp [storeSet, storeErase, lookupManifest]
  | cons e rest ih =>
    intro p m
    by_cases hep : e.1 = p
    · simpa [storeSet, storeErase, hep] using ih p m
    · simpa [storeSet, storeErase, hep, lookupManifest] using ih p m

/-- Writing a manifest leaves every other path unchanged. -/
theorem lookupManifest_storeSet_ne :
    ∀ (store : ManifestStore) (p : String) (m : Manifest) (q : String), q ≠ p →
      lookupManifest (storeSet store p m) q = lookupManifest store q := by
  intro store
  induction store with
  | nil =>
    intro p m q hq
    simp [storeSet, storeErase, lookupManifest, Ne.symm hq]
  | cons e rest ih =>
    intro p m q hq
    by_cases hep : e.1 = p
    · have hne : ¬e.1 = q := by rw [hep]; exact Ne.symm hq
      simpa [storeSet, storeErase, hep, lookupManifest, hne, Ne.symm hq] using ih p m q hq
    · by_cases heq : e.1 = q
      · simp [storeSet, storeErase, hep, lookupManifest, heq, hq]
      · simpa [storeSet, storeErase, hep, lookupManifest, heq] using ih p m q hq

/-- After a write there is exactly one document at the written path. -/
theorem storeSet_countP_one :
    ∀ (store : ManifestStore) (p : String) (m : Manifest),
      (storeSet store p m).countP (fun e => decide (e.1 = p)) = 1 := by
  intro store
  induction store with
  | nil => intro p m; simp [storeSet, storeErase]
  | cons e rest ih =>
    intro p m
    by_cases hep : e.1 = p
    · simpa [storeSet, storeErase, hep] using ih p m
    · simpa [storeSet, storeErase, hep, List.countP_cons] using ih p m

/-- C7 (amended: the manifest file name is images.json, as configured
by assets.manifestFile, not manifest.json): for every touched gallery
the writer stores exactly one manifest document at
output-root/gallery-id/images.json — carrying the collected ordered
image list, the fresh generation timestamp and the size-class table —
overwriting the previous one and touching no other path. -/
theorem spec_C7 (force : Bool) (now : Nat) (root gal : String) (imgs : List SrcImage)
    (fs : OutFS) (store : ManifestStore) :
    (lookupManifest (runGallery force now root gal imgs fs store).store
        (manifestPath root gal) =
      some ⟨(processList force now gal (manifestImagesAt store (manifestPath root gal))
              fs imgs).2.1, now, SIZES⟩) ∧
    ((runGallery force now root gal imgs fs store).store.countP
        (fun e => decide (e.1 = manifestPath root gal)) = 1) ∧
    (∀ p : String, p ≠ manifestPath root gal →
      lookupManifest (runGallery force now root gal imgs fs store).store p =
        lookupManifest store p) ∧
    manifestPath root gal = root ++ gal ++ "/" ++ "images.json" := by
  refine ⟨?_, ?_, ?_, rfl⟩
  · exact lookupManifest_storeSet_self store (manifestPath root gal) _
  · exact storeSet_countP_one store (manifestPath root gal) _
  · intro p hp
    exact lookupManifest_storeSet_ne store (manifestPath root gal) _ p hp

/-- C7 witness: on a concrete empty gallery the manifest lands at the
images.json path and any other path is untouched. -/
theorem spec_C7_witness :
    lookupManifest (runGallery false 1 "assets/" "bw" [] [] []).store
      "assets/bw/manifest.json" = none :=
  (spec_C7 false 1 "assets/" "bw" [] [] []).2.2.1 "assets/bw/manifest.json" (by decide)

/-- C7 counterexample: the claim's path output-root/gallery-id/
manifest.json holds no manifest; the document is written at
output-root/gallery-id/images.json instead. -/
theorem spec_C7_counterexample :
    manifestPath "assets/" "bw" = "assets/bw/images.json" ∧
    manifestPath "assets/" "bw" ≠ "assets/bw/manifest.json" ∧
    lookupManifest (runGallery false 1 "assets/" "bw" [] [] []).store
      "assets/bw/manifest.json" = none ∧
    lookupManifest (runGallery false 1 "assets/" "bw" [] [] []).store
      "assets/bw/images.json" = some ⟨[], 1, SIZES⟩ := by
  refine ⟨by decide, by decide, by decide, by decide⟩

/-- One outcome per image: the outcome stream has the batch's length. -/
theorem processList_length (force : Bool) (now : Nat) (gal : String)
    (oldRecs : List ImageRecord) :
    ∀ (imgs : List SrcImage) (fs : OutFS),
      (processList force now gal oldRecs fs imgs).2.2.length = imgs.length := by
  intro imgs
  induction imgs with
  | nil => intro fs; rfl
  | cons img rest ih => intro fs; simp [processList, ih]

/-- The i-th outcome is the outcome of processing the i-th image at
the output tree the fold reached there. -/
theorem processList_get? (force : Bool) (now : Nat) (gal : String)
    (oldRecs : List ImageRecord) :
    ∀ (imgs : List SrcImage) (fs : OutFS) (i : Nat) (img : SrcImage),
      imgs.get? i = some img →
      ∃ fsi, (processList force now gal oldRecs fs imgs).2.2.get? i =
        some (process_image force fsi gal img now).1 := by
  intro imgs
  induction imgs with
  | nil => intro fs i img h; simp at h
  | cons img0 rest ih =>
    intro fs i img h
    cases i with
    | zero =>
      have h0 : img0 = img := by simpa using h
      subst h0
      exact ⟨fs, rfl⟩
    | succ k =>
      have hk : rest.get? k = some img := by simpa using h
      obtain ⟨fsi, hfsi⟩ := ih (process_image force fs gal img0 now).2 k img hk
      exact ⟨fsi, by simpa [processList] using hfsi⟩

/-- Shape of one job's outcome: a decode failure is caught and turned
into an error outcome carrying the image id (or the image is skipped
by the gate); an error outcome always carries the failing image's id;
a processed record carries the image's id. -/
theorem process_image_outcome (force : Bool) (fs : OutFS) (gal : String) (img : SrcImage)
    (now : Nat) :
    (img.decodable = false →
      (process_image force fs gal img now).1 = .skipped ∨
      (process_image force fs gal img now).1 = .error img.id "decode failure") ∧
    (∀ eid msg, (process_image force fs gal img now).1 = .error eid msg → eid = img.id) ∧
    (∀ r, (process_image force fs gal img now).1 = .processed r → r.id = img.id) := by
  unfold process_image
  split_ifs with h1 h2
  · refine ⟨fun _ => Or.inl rfl, ?_, ?_⟩
    · intro eid msg h
      exact h.elim
    · intro r h
      exact h.elim
  · refine ⟨?_, ?_, ?_⟩
    · intro hd
      rw [h2] at hd
      exact Bool.noConfusion hd
    · intro eid msg h
      exact h.elim
    · intro r h
      rw [← Outcome.processed.inj h]
      rfl
  · refine ⟨fun _ => Or.inr rfl, ?_, ?_⟩
    · intro eid msg h
      exact ((Outcome.error.inj h).1).symm
    · intro r h
      exact h.elim

/-- C5: a per-image failure is caught at the job boundary, recorded as
an error outcome carrying that image's id, and the batch continues —
every image of the run still gets exactly one outcome — and the exit
code is 0 exactly when the per-image error count is zero. -/
theorem spec_C5 (force : Bool) (now : Nat) (root gal : String) (imgs : List SrcImage)
    (fs : OutFS) (store : ManifestStore) :
    ((runGallery force now root gal imgs fs store).outs.length = imgs.length) ∧
    (∀ i img, imgs.get? i = some img → img.decodable = false →
      (runGallery force now root gal imgs fs store).outs.get? i = some .skipped ∨
      (runGallery force now root gal imgs fs store).outs.get? i =
        some (.error img.id "decode failure")) ∧
    (∀ i img eid msg, imgs.get? i = some img →
      (runGallery force now root gal imgs fs store).outs.get? i =
        some (.error eid msg) → eid = img.id) ∧
    (exit_code (summarize (runGallery force now root gal imgs fs store).outs) = 0 ↔
      (summarize (runGallery force now root gal imgs fs store).outs).errors = 0) := by
  have houts : (runGallery force now root gal imgs fs store).outs =
      (processList force now gal (manifestImagesAt store (manifestPath root gal))
        fs imgs).2.2 := rfl
  refine ⟨?_, ?_, ?_, ?_⟩
  · rw [houts]
    exact processList_length force now gal _ imgs fs
  · intro i img hi hd
    rw [houts]
    obtain ⟨fsi, hfsi⟩ := processList_get? force now gal
      (manifestImagesAt store (manifestPath root gal)) imgs fs i img hi
    rcases (process_image_outcome force fsi gal img now).1 hd with h | h
    · exact Or.inl (by rw [hfsi, h])
    · exact Or.inr (by rw [hfsi, h])
  · intro i img eid msg hi herr
    rw [houts] at herr
    obtain ⟨fsi, hfsi⟩ := processList_get? force now gal
      (manifestImagesAt store (manifestPath root gal)) imgs fs i img hi
    rw [hfsi] at herr
    have : (process_image force fsi gal img now).1 = .error eid msg := by
      simpa using herr
    exact (process_image_outcome force fsi gal img now).2.1 eid msg this
  · constructor
    · intro h0
      by_contra hne
      rw [exit_code, if_neg hne] at h0
      exact one_ne_zero h0
    · intro h0
      rw [exit_code, if_pos h0]

/-- C5 witness: in a concrete two-image batch whose second image is
corrupt, the second outcome is an error carrying that image's id, the
batch still has two outcomes, and the exit code is nonzero. -/
theorem spec_C5_witness :
    ((runGallery false 3 "assets/" "g" [⟨"a", 0, 4, 3, true⟩, ⟨"b", 0, 2, 2, false⟩]
        [] []).outs.length = 2) ∧
    ((runGallery false 3 "assets/" "g" [⟨"a", 0, 4, 3, true⟩, ⟨"b", 0, 2, 2, false⟩]
        [] []).outs.get? 1 = some .skipped ∨
     (runGallery false 3 "assets/" "g" [⟨"a", 0, 4, 3, true⟩, ⟨"b", 0, 2, 2, false⟩]
        [] []).outs.get? 1 = some (.error "b" "decode failure")) :=
  ⟨(spec_C5 false 3 "assets/" "g" [⟨"a", 0, 4, 3, true⟩, ⟨"b", 0, 2, 2, false⟩] [] []).1,
   (spec_C5 false 3 "assets/" "g" [⟨"a", 0, 4, 3, true⟩, ⟨"b", 0, 2, 2, false⟩] [] []).2.1
     1 ⟨"b", 0, 2, 2, false⟩ (by decide) (by decide)⟩

/-- Writing one output file: lookup after fsSet. -/
theorem fsLookup_fsSet :
    ∀ (fs : OutFS) (k : VKey) (t : Nat) (q : VKey),
      fsLookup (fsSet fs k t) q = if q = k then some t else fsLookup fs q := by
  intro fs
  induction fs with
  | nil =>
    intro k t q
    by_cases h : q = k
    · simp [fsSet, fsLookup, h]
    · simp [fsSet, fsLookup, h, Ne.symm h]
  | cons e rest ih =>
    intro k t q
    by_cases hek : e.1 = k
    · by_cases hqk : q = k
      · simp [fsSet, hek, fsLookup, hqk]
      · have h2 : ¬k = q := fun h => hqk h.symm
        have h3 : ¬e.1 = q := by rw [hek]; exact h2
        simp [fsSet, hek, fsLookup, h2, h3, hqk]
    · by_cases heq : e.1 = q
      · have hqk : ¬q = k := fun h => hek (heq.symm ▸ h)
        simp [fsSet, hek, fsLookup, heq, hqk]
      · simp [fsSet, hek, fsLookup, heq, ih k t q]

/-- Writing a batch of output files: lookup after writeOutputs. -/
theorem fsLookup_writeOutputs :
    ∀ (ks : List VKey) (fs : OutFS) (t : Nat) (q : VKey),
      fsLookup (writeOutputs fs ks t) q = if q ∈ ks then some t else fsLookup fs q := by
  intro ks
  induction ks with
  | nil => intro fs t q; simp [writeOutputs]
  | cons k0 ks ih =>
    intro fs t q
    rw [writeOutputs, ih (fsSet fs k0 t) t q, fsLookup_fsSet]
    by_cases h1 : q ∈ ks
    · simp [h1, List.mem_cons]
    · by_cases h2 : q = k0 <;> simp [h1, h2, List.mem_cons]

/-- The gate only consults the lookups of its expected outputs. -/
theorem needs_processing_congr (fs1 fs2 : OutFS) (m : Nat) :
    ∀ (outs : List VKey), (∀ k ∈ outs, fsLookup fs1 k = fsLookup fs2 k) →
      needs_processing fs1 m outs = needs_processing fs2 m outs := by
  intro outs
  induction outs with
  | nil => intro _; rfl
  | cons k ks ih =>
    intro h
    have hk := h k (List.mem_cons_self k ks)
    have hks := ih fun k2 hk2 => h k2 (List.mem_cons_of_mem k hk2)
    simp only [needs_processing, List.any_cons] at hks ⊢
    rw [hk, hks]

/-- An expected output key names its gallery and image. -/
theorem expectedKeys_gal_img (gal imgId : String) (k : VKey) (h : k ∈ expectedKeys gal imgId) :
    k.gal = gal ∧ k.img = imgId := by
  simp [expectedKeys, SIZES] at h
  rcases h with h | h | h <;> subst h <;> exact ⟨rfl, rfl⟩

/-- Processing one image touches no output outside its expected keys. -/
theorem process_image_fs_lookup (force : Bool) (fs : OutFS) (gal : String) (img : SrcImage)
    (now : Nat) (q : VKey) (hq : q ∉ expectedKeys gal img.id) :
    fsLookup (process_image force fs gal img now).2 q = fsLookup fs q := by
  unfold process_image
  split_ifs with h1 h2
  · rfl
  · show fsLookup (writeOutputs fs (expectedKeys gal img.id) now) q = fsLookup fs q
    rw [fsLookup_writeOutputs]
    simp [hq]
  · rfl

/-- A batch touches no output outside its images' expected keys. -/
theorem processList_fs_lookup (force : Bool) (now : Nat) (gal : String)
    (oldRecs : List ImageRecord) :
    ∀ (imgs : List SrcImage) (fs : OutFS) (q : VKey),
      (∀ img ∈ imgs, q ∉ expectedKeys gal img.id) →
      fsLookup (processList force now gal oldRecs fs imgs).1 q = fsLookup fs q := by
  intro imgs
  induction imgs with
  | nil => intro fs q _; rfl
  | cons img rest ih =>
    intro fs q h
    have h0 := h img (List.mem_cons_self img rest)
    have hr : ∀ im ∈ rest, q ∉ expectedKeys gal im.id :=
      fun im hm => h im (List.mem_cons_of_mem img hm)
    show fsLookup (processList force now gal oldRecs
      (process_image force fs gal img now).2 rest).1 q = fsLookup fs q
    rw [ih _ q hr, process_image_fs_lookup force fs gal img now q h0]

/-- In an unforced run one job's manifest contribution is contrib of
the tree its gate consulted. -/
theorem carriedRecord_process_image (fs : OutFS) (gal : String) (oldRecs : List ImageRecord)
    (now : Nat) (img : SrcImage) :
    carriedRecord oldRecs (process_image false fs gal img now).1 img =
      contrib gal fs oldRecs img := by
  by_cases hg : needs_processing fs img.mtime (expectedKeys gal img.id) = false
  · have hc : (false = false ∧
        needs_processing fs img.mtime (expectedKeys gal img.id) = false) := ⟨rfl, hg⟩
    simp [process_image, contrib, hc, hg, carriedRecord]
  · have hc : ¬(false = false ∧
        needs_processing fs img.mtime (expectedKeys gal img.id) = false) :=
      fun hh => hg hh.2
    by_cases hd : img.decodable
    · simp [process_image, contrib, hc, hg, hd, carriedRecord]
    · simp [process_image, contrib, hc, hg, hd, carriedRecord]

/-- With unique ids, an unforced batch's collected records are the
per-image contributions evaluated at the batch's entry tree. -/
theorem processList_records (now : Nat) (gal : String) (oldRecs : List ImageRecord) :
    ∀ (imgs : List SrcImage) (fs : OutFS),
      (imgs.map SrcImage.id).Nodup →
      (processList false now gal oldRecs fs imgs).2.1 =
        imgs.filterMap (contrib gal fs oldRecs) := by
  intro imgs
  induction imgs with
  | nil => intro fs _; rfl
  | cons img rest ih =>
    intro fs hnd
    rw [List.map_cons, List.nodup_cons] at hnd
    have hni : img.id ∉ rest.map SrcImage.id := hnd.1
    have hnd' : (rest.map SrcImage.id).Nodup := hnd.2
    show (carriedRecord oldRecs (process_image false fs gal img now).1 img).toList ++
        (processList false now gal oldRecs (process_image false fs gal img now).2 rest).2.1 =
      List.filterMap (contrib gal fs oldRecs) (img :: rest)
    rw [carriedRecord_process_image, ih _ hnd']
    have hc : ∀ im ∈ rest,
        contrib gal (process_image false fs gal img now).2 oldRecs im =
          contrib gal fs oldRecs im := by
      intro im hm
      unfold contrib
      have hgeq : needs_processing (process_image false fs gal img now).2 im.mtime
          (expectedKeys gal im.id) = needs_processing fs im.mtime (expectedKeys gal im.id) := by
        apply needs_processing_congr
        intro k hk
        apply process_image_fs_lookup
        intro hk2
        have e1 := (expectedKeys_gal_img gal im.id k hk).2
        have e2 := (expectedKeys_gal_img gal img.id k hk2).2
        have hsame : img.id = im.id := e2.symm.trans e1
        exact hni (hsame ▸ List.mem_map_of_mem SrcImage.id hm)
      rw [hgeq]
    rw [List.filterMap_congr hc, List.filterMap_cons]
    cases hcon : contrib gal fs oldRecs img <;> simp [hcon]

/-- After one job runs at time now (at or after the source mtime), an
image that was fresh or decodable is fresh in the resulting tree. -/
theorem process_image_gate_false (fs : OutFS) (gal : String) (img : SrcImage) (now : Nat)
    (hmt : img.mtime ≤ now) (force : Bool)
    (hd : needs_processing fs img.mtime (expectedKeys gal img.id) = false ∨
      img.decodable = true) :
    needs_processing (process_image force fs gal img now).2 img.mtime
      (expectedKeys gal img.id) = false := by
  unfold process_image
  split_ifs with h1 h2
  · exact h1.2
  · show needs_processing (writeOutputs fs (expectedKeys gal img.id) now) img.mtime
      (expectedKeys gal img.id) = false
    unfold needs_processing
    rw [List.any_eq_false]
    intro k hk
    rw [fsLookup_writeOutputs]
    simp only [hk, if_pos]
    simp [Nat.not_lt.mpr hmt]
  · rcases hd with hfresh | hdec
    · exact hfresh
    · exact absurd hdec h2

/-- After an unforced or forced batch runs at time now, every image of
the batch that entered fresh or decodable leaves fresh, given unique
ids and sane mtimes. -/
theorem processList_gate_false (now : Nat) (gal : String) (oldRecs : List ImageRecord)
    (force : Bool) :
    ∀ (imgs : List SrcImage) (fs : OutFS),
      (imgs.map SrcImage.id).Nodup →
      (∀ im ∈ imgs, im.mtime ≤ now) →
      ∀ img ∈ imgs,
        (needs_processing fs img.mtime (expectedKeys gal img.id) = false ∨
          img.decodable = true) →
        needs_processing (processList force now gal oldRecs fs imgs).1 img.mtime
          (expectedKeys gal img.id) = false := by
  intro imgs
  induction imgs with
  | nil => intro fs _ _ img hmem; exact absurd hmem (List.not_mem_nil img)
  | cons img0 rest ih =>
    intro fs hnd hmt img hmem hdisj
    rw [List.map_cons, List.nodup_cons] at hnd
    have hni : img0.id ∉ rest.map SrcImage.id := hnd.1
    have hnd' : (rest.map SrcImage.id).Nodup := hnd.2
    have hmt0 : img0.mtime ≤ now := hmt img0 (List.mem_cons_self img0 rest)
    have hmtr : ∀ im ∈ rest, im.mtime ≤ now :=
      fun im hm => hmt im (List.mem_cons_of_mem img0 hm)
    rcases List.mem_cons.mp hmem with heq | hmr
    · subst heq
      have hforeign : ∀ im ∈ rest, ∀ k ∈ expectedKeys gal img.id,
          k ∉ expectedKeys gal im.id := by
        intro im hm k hk hk2
        have e1 := (expectedKeys_gal_img gal img.id k hk).2
        have e2 := (expectedKeys_gal_img gal im.id k hk2).2
        have hsame : img.id = im.id := e1.symm.trans e2
        exact hni (hsame ▸ List.mem_map_of_mem SrcImage.id hm)
      have hcongr : needs_processing
          (processList force now gal oldRecs (process_image force fs gal img now).2 rest).1
          img.mtime (expectedKeys gal img.id) =
          needs_processing (process_image force fs gal img now).2 img.mtime
            (expectedKeys gal img.id) := by
        apply needs_processing_congr
        intro k hk
        exact processList_fs_lookup force now gal oldRecs rest _ k
          (fun im hm => hforeign im hm k hk)
      show needs_processing
        (processList force now gal oldRecs (process_image force fs gal img now).2 rest).1
        img.mtime (expectedKeys gal img.id) = false
      rw [hcongr]
      exact process_image_gate_false fs gal img now hmt0 force hdisj
    · have hgeq : needs_processing (process_image force fs gal img0 now).2 img.mtime
          (expectedKeys gal img.id) =
          needs_processing fs img.mtime (expectedKeys gal img.id) := by
        apply needs_processing_congr
        intro k hk
        apply process_image_fs_lookup
        intro hk2
        have e1 := (expectedKeys_gal_img gal img.id k hk).2
        have e2 := (expectedKeys_gal_img gal img0.id k hk2).2
        have hsame : img0.id = img.id := e2.symm.trans e1
        exact hni (hsame ▸ List.mem_map_of_mem SrcImage.id hmr)
      have hdisj' : (needs_processing (process_image force fs gal img0 now).2 img.mtime
          (expectedKeys gal img.id) = false ∨ img.decodable = true) := by
        rcases hdisj with hfresh | hdec
        · exact Or.inl (hgeq.trans hfresh)
        · exact Or.inr hdec
      exact ih _ hnd' hmtr img hmr hdisj'

/-- Under a fully fresh tree an unforced batch leaves the tree
unchanged and processes nothing. -/
theorem processList_inert (now : Nat) (gal : String) (oldRecs : List ImageRecord) :
    ∀ (imgs : List SrcImage) (fs : OutFS),
      (∀ img ∈ imgs, img.decodable = true →
        needs_processing fs img.mtime (expectedKeys gal img.id) = false) →
      (processList false now gal oldRecs fs imgs).1 = fs ∧
      (processList false now gal oldRecs fs imgs).2.2.countP isProcessed = 0 := by
  intro imgs
  induction imgs with
  | nil => intro fs _; exact ⟨rfl, rfl⟩
  | cons img rest ih =>
    intro fs h
    have hrest : ∀ im ∈ rest, im.decodable = true →
        needs_processing fs im.mtime (expectedKeys gal im.id) = false :=
      fun im hm => h im (List.mem_cons_of_mem img hm)
    by_cases hg : needs_processing fs img.mtime (expectedKeys gal img.id) = false
    · have hstep : process_image false fs gal img now = (.skipped, fs) := by
        have hc : (false = false ∧
            needs_processing fs img.mtime (expectedKeys gal img.id) = false) := ⟨rfl, hg⟩
        simp [process_image, hc]
      obtain ⟨hfs, hcnt⟩ := ih fs hrest
      constructor
      · show (processList false now gal oldRecs (process_image false fs gal img now).2 rest).1 = fs
        rw [hstep]
        exact hfs
      · show ((process_image false fs gal img now).1 ::
            (processList false now gal oldRecs
              (process_image false fs gal img now).2 rest).2.2).countP isProcessed = 0
        rw [hstep]
        simp [List.countP_cons, isProcessed, hcnt]
    · have hd : img.decodable = false := by
        cases hdd : img.decodable
        · rfl
        · exact absurd (h img (List.mem_cons_self img rest) hdd) hg
      have hc : ¬(false = false ∧
          needs_processing fs img.mtime (expectedKeys gal img.id) = false) :=
        fun hh => hg hh.2
      have hg2 : needs_processing fs img.mtime (expectedKeys gal img.id) = true := by
        revert hg
        cases needs_processing fs img.mtime (expectedKeys gal img.id) <;> simp
      have hstep : process_image false fs gal img now = (.error img.id "decode failure", fs) := by
        simp [process_image, hc, hd, hg2]
      obtain ⟨hfs, hcnt⟩ := ih fs hrest
      constructor
      · show (processList false now gal oldRecs (process_image false fs gal img now).2 rest).1 = fs
        rw [hstep]
        exact hfs
      · show ((process_image false fs gal img now).1 ::
            (processList false now gal oldRecs
              (process_image false fs gal img now).2 rest).2.2).countP isProcessed = 0
        rw [hstep]
        simp [List.countP_cons, isProcessed, hcnt]

/-- Filtering with a predicate that keeps every entry of a key leaves
that key's lookup unchanged. -/
theorem fsLookup_filter (p : VKey × Nat → Bool) :
    ∀ (fs : OutFS) (q : VKey), (∀ t, p (q, t) = true) →
      fsLookup (fs.filter p) q = fsLookup fs q := by
  intro fs
  induction fs with
  | nil => intro q _; rfl
  | cons e rest ih =>
    intro q hq
    by_cases heq : e.1 = q
    · have hpe : p e = true := by
        have h2 := hq e.2
        rw [show (q, e.2) = (e.1, e.2) by rw [heq]] at h2
        exact h2
      rw [List.filter_cons, if_pos hpe]
      simp [fsLookup, heq]
    · rw [List.filter_cons]
      by_cases hpe : p e = true
      · rw [if_pos hpe]
        simp only [fsLookup, heq, if_neg heq]
        exact ih q hq
      · rw [if_neg hpe]
        rw [ih q hq]
        simp [fsLookup, heq]

/-- The within-gallery orphan pass keeps every output that belongs to
a current image or to another gallery. -/
theorem clean_orphans_fs_lookup (fs : OutFS) (gal : String) (ids : List String) (q : VKey)
    (hq : q.img ∈ ids ∨ q.gal ≠ gal) :
    fsLookup (clean_orphans fs gal ids).1 q = fsLookup fs q := by
  apply fsLookup_filter
  intro t
  rcases hq with h | h <;> simp [isOrphan, h]

/-- Filtering with a predicate that keeps every entry of a path leaves
that path's manifest lookup unchanged. -/
theorem lookupManifest_filter (p : String × Manifest → Bool) :
    ∀ (store : ManifestStore) (q : String), (∀ m, p (q, m) = true) →
      lookupManifest (store.filter p) q = lookupManifest store q := by
  intro store
  induction store with
  | nil => intro q _; rfl
  | cons e rest ih =>
    intro q hq
    by_cases heq : e.1 = q
    · have hpe : p e = true := by
        have h2 := hq e.2
        rw [show (q, e.2) = (e.1, e.2) by rw [heq]] at h2
        exact h2
      rw [List.filter_cons, if_pos hpe]
      simp [lookupManifest, heq]
    · rw [List.filter_cons]
      by_cases hpe : p e = true
      · rw [if_pos hpe]
        simp only [lookupManifest, heq, if_neg heq]
        exact ih q hq
      · rw [if_neg hpe]
        rw [ih q hq]
        simp [lookupManifest, heq]

/-- An entry of an updated output tree either was there or was written
by the batch for this gallery. -/
theorem mem_fsSet (fs : OutFS) (k : VKey) (t : Nat) :
    ∀ e ∈ fsSet fs k t, e ∈ fs ∨ e = (k, t) := by
  induction fs with
  | nil => intro e he; simp [fsSet] at he; exact Or.inr he
  | cons e0 rest ih =>
    intro e he
    by_cases hek : e0.1 = k
    · rw [fsSet, if_pos hek] at he
      rcases List.mem_cons.mp he with h | h
      · exact Or.inr h
      · exact Or.inl (List.mem_cons_of_mem e0 h)
    · rw [fsSet, if_neg hek] at he
      rcases List.mem_cons.mp he with h | h
      · exact Or.inl (h ▸ List.mem_cons_self e0 rest)
      · rcases ih e h with h2 | h2
        · exact Or.inl (List.mem_cons_of_mem e0 h2)
        · exact Or.inr h2

/-- Entries of writeOutputs come from the tree or from the batch. -/
theorem mem_writeOutputs :
    ∀ (ks : List VKey) (fs : OutFS) (t : Nat) (e : VKey × Nat),
      e ∈ writeOutputs fs ks t → e ∈ fs ∨ e.1 ∈ ks := by
  intro ks
  induction ks with
  | nil => intro fs t e he; exact Or.inl he
  | cons k0 ks ih =>
    intro fs t e he
    rw [writeOutputs] at he
    rcases ih (fsSet fs k0 t) t e he with h | h
    · rcases mem_fsSet fs k0 t e h with h2 | h2
      · exact Or.inl h2
      · exact Or.inr (by rw [h2]; exact List.mem_cons_self k0 ks)
    · exact Or.inr (List.mem_cons_of_mem k0 h)

/-- Entries after one job come from the tree or belong to the job's
gallery. -/
theorem mem_process_image (force : Bool) (fs : OutFS) (gal : String) (img : SrcImage)
    (now : Nat) (e : VKey × Nat) (he : e ∈ (process_image force fs gal img now).2) :
    e ∈ fs ∨ e.1.gal = gal := by
  revert he
  unfold process_image
  split_ifs with h1 h2
  · exact fun he => Or.inl he
  · intro he
    rcases mem_writeOutputs (expectedKeys gal img.id) fs now e he with h | h
    · exact Or.inl h
    · exact Or.inr (expectedKeys_gal_img gal img.id e.1 h).1
  · exact fun he => Or.inl he

/-- Entries after a batch come from the tree or belong to the batch's
gallery. -/
theorem mem_processList (force : Bool) (now : Nat) (gal : String)
    (oldRecs : List ImageRecord) :
    ∀ (imgs : List SrcImage) (fs : OutFS) (e : VKey × Nat),
      e ∈ (processList force now gal oldRecs fs imgs).1 → e ∈ fs ∨ e.1.gal = gal := by
  intro imgs
  induction imgs with
  | nil => intro fs e he; exact Or.inl he
  | cons img rest ih =>
    intro fs e he
    have he2 : e ∈ (processList force now gal oldRecs
        (process_image force fs gal img now).2 rest).1 := he
    rcases ih _ e he2 with h | h
    · exact mem_process_image force fs gal img now e h
    · exact Or.inr h

/-- Entries after one gallery's build come from the tree or belong to
that gallery. -/
theorem mem_runGallery (force : Bool) (now : Nat) (root gal : String) (imgs : List SrcImage)
    (fs : OutFS) (store : ManifestStore) (e : VKey × Nat)
    (he : e ∈ (runGallery force now root gal imgs fs store).fs) :
    e ∈ fs ∨ e.1.gal = gal := by
  have he2 : e ∈ (processList force now gal
      (manifestImagesAt store (manifestPath root gal)) fs imgs).1 :=
    (List.mem_filter.mp he).1
  exact mem_processList force now gal _ imgs fs e he2

/-- A gallery-g entry that survives the within-gallery orphan pass
names a current image id. -/
theorem runGallery_gal_entry_valid (force : Bool) (now : Nat) (root gal : String)
    (imgs : List SrcImage) (fs : OutFS) (store : ManifestStore) (e : VKey × Nat)
    (he : e ∈ (runGallery force now root gal imgs fs store).fs) (hgal : e.1.gal = gal) :
    e.1.img ∈ imgs.map SrcImage.id := by
  have hp := (List.mem_filter.mp he).2
  by_cases hm : e.1.img ∈ imgs.map SrcImage.id
  · exact hm
  · exfalso
    simp [isOrphan, hgal, hm] at hp

/-- Two gallery ids with the same manifest path are equal. -/
theorem manifestPath_inj (root g1 g2 : String)
    (h : manifestPath root g1 = manifestPath root g2) : g1 = g2 := by
  unfold manifestPath at h
  have hd := congrArg String.data h
  simp only [String.data_append, List.append_assoc] at hd
  have h2 := List.append_cancel_left hd
  have h3 := List.append_cancel_right h2
  exact String.ext h3

/-- A found record carries the id it was looked up by. -/
theorem findRecord_id :
    ∀ (recs : List ImageRecord) (i : String) (r : ImageRecord),
      findRecord recs i = some r → r.id = i := by
  intro recs
  induction recs with
  | nil => intro i r h; exact absurd h (by simp [findRecord])
  | cons r0 rest ih =>
    intro i r h
    rw [findRecord] at h
    by_cases h0 : r0.id = i
    · rw [if_pos h0] at h
      cases h
      exact h0
    · rw [if_neg h0] at h
      exact ih i r h

/-- A contribution's record carries its image's id. -/
theorem contrib_id (gal : String) (gfs : OutFS) (oldRecs : List ImageRecord)
    (img : SrcImage) (r : ImageRecord) (h : contrib gal gfs oldRecs img = some r) :
    r.id = img.id := by
  unfold contrib at h
  split_ifs at h with h1 h2
  · exact findRecord_id oldRecs img.id r h
  · cases h
    rfl

/-- No collected record matches an id outside the batch. -/
theorem findRecord_filterMap_not_mem (f : SrcImage → Option ImageRecord)
    (hf : ∀ im r, f im = some r → r.id = im.id) :
    ∀ (imgs : List SrcImage) (i : String), i ∉ imgs.map SrcImage.id →
      findRecord (imgs.filterMap f) i = none := by
  intro imgs
  induction imgs with
  | nil => intro i _; rfl
  | cons img rest ih =>
    intro i hni
    have hir : i ∉ rest.map SrcImage.id := fun hm =>
      hni (by rw [List.map_cons]; exact List.mem_cons_of_mem _ hm)
    have hii : ¬img.id = i := by
      intro he
      apply hni
      rw [List.map_cons, ← he]
      exact List.mem_cons_self _ _
    cases hfi : f img with
    | none =>
      rw [List.filterMap_cons, hfi]
      exact ih i hir
    | some r =>
      rw [List.filterMap_cons, hfi]
      show findRecord (r :: rest.filterMap f) i = none
      have hr : ¬r.id = i := by rw [hf img r hfi]; exact hii
      rw [findRecord, if_neg hr]
      exact ih i hir

/-- With unique batch ids, looking a batch image's id up in the
collected records returns exactly that image's contribution. -/
theorem findRecord_filterMap (f : SrcImage → Option ImageRecord)
    (hf : ∀ im r, f im = some r → r.id = im.id) :
    ∀ (imgs : List SrcImage), (imgs.map SrcImage.id).Nodup →
      ∀ img ∈ imgs, findRecord (imgs.filterMap f) img.id = f img := by
  intro imgs
  induction imgs with
  | nil => intro _ img hm; exact absurd hm (List.not_mem_nil img)
  | cons img0 rest ih =>
    intro hnd img hm
    rw [List.map_cons, List.nodup_cons] at hnd
    rcases List.mem_cons.mp hm with heq | hmr
    · subst heq
      cases hfi : f img with
      | none =>
        rw [List.filterMap_cons, hfi]
        exact findRecord_filterMap_not_mem f hf rest img.id hnd.1
      | some r =>
        rw [List.filterMap_cons, hfi]
        show findRecord (r :: rest.filterMap f) img.id = some r
        rw [findRecord, if_pos (hf img r hfi)]
    · cases hfi : f img0 with
      | none =>
        rw [List.filterMap_cons, hfi]
        exact ih hnd.2 img hmr
      | some r =>
        rw [List.filterMap_cons, hfi]
        show findRecord (r :: rest.filterMap f) img.id = f img
        have hne : ¬r.id = img.id := by
          rw [hf img0 r hfi]
          intro he
          apply hnd.1
          rw [he]
          exact List.mem_map_of_mem SrcImage.id hmr
        rw [findRecord, if_neg hne]
        exact ih hnd.2 img hmr

/-- A multi-gallery run touches no output of an undiscovered gallery. -/
theorem runGalleries_fs_foreign (force : Bool) (now : Nat) (root : String) :
    ∀ (gs : List (String × List SrcImage)) (fs : OutFS) (store : ManifestStore) (q : VKey),
      q.gal ∉ gs.map Prod.fst →
      fsLookup (runGalleries force now root fs store gs).fs q = fsLookup fs q := by
  intro gs
  induction gs with
  | nil => intro fs store q _; rfl
  | cons g0 rest ih =>
    intro fs store q hq
    rw [List.map_cons] at hq
    have h1 : q.gal ≠ g0.1 := fun he => hq (he ▸ List.mem_cons_self _ _)
    have h2 : q.gal ∉ rest.map Prod.fst := fun hm => hq (List.mem_cons_of_mem _ hm)
    show fsLookup (runGalleries force now root
      (runGallery force now root g0.1 g0.2 fs store).fs
      (runGallery force now root g0.1 g0.2 fs store).store rest).fs q = fsLookup fs q
    rw [ih _ _ q h2]
    show fsLookup (clean_orphans
      (processList force now g0.1 (manifestImagesAt store (manifestPath root g0.1)) fs g0.2).1
      g0.1 (g0.2.map SrcImage.id)).1 q = fsLookup fs q
    rw [clean_orphans_fs_lookup _ _ _ q (Or.inr h1)]
    apply processList_fs_lookup
    intro img _ hk
    exact h1 (expectedKeys_gal_img g0.1 img.id q hk).1

/-- A multi-gallery run touches no manifest of an undiscovered path. -/
theorem runGalleries_store_foreign (force : Bool) (now : Nat) (root : String) :
    ∀ (gs : List (String × List SrcImage)) (fs : OutFS) (store : ManifestStore) (p : String),
      (∀ n ∈ gs.map Prod.fst, p ≠ manifestPath root n) →
      lookupManifest (runGalleries force now root fs store gs).store p =
        lookupManifest store p := by
  intro gs
  induction gs with
  | nil => intro fs store p _; rfl
  | cons g0 rest ih =>
    intro fs store p hp
    have h1 : p ≠ manifestPath root g0.1 :=
      hp g0.1 (by rw [List.map_cons]; exact List.mem_cons_self _ _)
    have h2 : ∀ n ∈ rest.map Prod.fst, p ≠ manifestPath root n :=
      fun n hn => hp n (by rw [List.map_cons]; exact List.mem_cons_of_mem _ hn)
    show lookupManifest (runGalleries force now root
      (runGallery force now root g0.1 g0.2 fs store).fs
      (runGallery force now root g0.1 g0.2 fs store).store rest).store p = lookupManifest store p
    rw [ih _ _ p h2]
    exact lookupManifest_storeSet_ne store (manifestPath root g0.1) _ p h1

/-- Entries after a multi-gallery run come from the initial tree or
belong to one of the run's galleries. -/
theorem mem_runGalleries (force : Bool) (now : Nat) (root : String) :
    ∀ (gs : List (String × List SrcImage)) (fs : OutFS) (store : ManifestStore)
      (e : VKey × Nat),
      e ∈ (runGalleries force now root fs store gs).fs →
      e ∈ fs ∨ e.1.gal ∈ gs.map Prod.fst := by
  intro gs
  induction gs with
  | nil => intro fs store e he; exact Or.inl he
  | cons g0 rest ih =>
    intro fs store e he
    have he2 : e ∈ (runGalleries force now root
        (runGallery force now root g0.1 g0.2 fs store).fs
        (runGallery force now root g0.1 g0.2 fs store).store rest).fs := he
    rcases ih _ _ e he2 with h | h
    · rcases mem_runGallery force now root g0.1 g0.2 fs store e h with h2 | h2
      · exact Or.inl h2
      · refine Or.inr ?_
        rw [List.map_cons, h2]
        exact List.mem_cons_self _ _
    · refine Or.inr ?_
      rw [List.map_cons]
      exact List.mem_cons_of_mem _ h

/-- After a multi-gallery run with distinct gallery names, every entry
of a run gallery names one of that gallery's current image ids. -/
theorem runGalleries_entry_valid (force : Bool) (now : Nat) (root : String) :
    ∀ (gs : List (String × List SrcImage)) (fs : OutFS) (store : ManifestStore),
      (gs.map Prod.fst).Nodup →
      ∀ g ∈ gs, ∀ e ∈ (runGalleries force now root fs store gs).fs,
        e.1.gal = g.1 → e.1.img ∈ g.2.map SrcImage.id := by
  intro gs
  induction gs with
  | nil => intro fs store _ g hg; exact absurd hg (List.not_mem_nil g)
  | cons g0 rest ih =>
    intro fs store hnd g hg e he hgal
    rw [List.map_cons, List.nodup_cons] at hnd
    rcases List.mem_cons.mp hg with heq | hgr
    · subst heq
      have he2 : e ∈ (runGalleries force now root
          (runGallery force now root g.1 g.2 fs store).fs
          (runGallery force now root g.1 g.2 fs store).store rest).fs := he
      rcases mem_runGalleries force now root rest _ _ e he2 with h | h
      · exact runGallery_gal_entry_valid force now root g.1 g.2 fs store e h hgal
      · exact absurd (hgal ▸ h) hnd.1
    · exact ih _ _ hnd.2 g hgr e he hgal

/-- First run: each gallery's manifest holds the per-image
contributions for some gate tree, and every image that was fresh for
that tree or decodable is fresh in the run's final tree. -/
theorem runGalleries_run1 (now1 : Nat) (root : String) :
    ∀ (gs : List (String × List SrcImage)) (fs : OutFS) (store : ManifestStore),
      (gs.map Prod.fst).Nodup →
      (∀ g ∈ gs, (g.2.map SrcImage.id).Nodup) →
      (∀ g ∈ gs, ∀ im ∈ g.2, im.mtime ≤ now1) →
      ∀ g ∈ gs, ∃ fse oldRecs,
        lookupManifest (runGalleries false now1 root fs store gs).store
            (manifestPath root g.1) =
          some ⟨g.2.filterMap (contrib g.1 fse oldRecs), now1, SIZES⟩ ∧
        ∀ img ∈ g.2,
          (needs_processing fse img.mtime (expectedKeys g.1 img.id) = false ∨
            img.decodable = true) →
          needs_processing (runGalleries false now1 root fs store gs).fs img.mtime
            (expectedKeys g.1 img.id) = false := by
  intro gs
  induction gs with
  | nil => intro fs store _ _ _ g hg; exact absurd hg (List.not_mem_nil g)
  | cons g0 rest ih =>
    intro fs store hnd hids hmt g hg
    rw [List.map_cons, List.nodup_cons] at hnd
    rcases List.mem_cons.mp hg with heq | hgr
    · subst heq
      refine ⟨fs, manifestImagesAt store (manifestPath root g.1), ?_, ?_⟩
      · have hforeign : ∀ n ∈ rest.map Prod.fst,
            manifestPath root g.1 ≠ manifestPath root n := by
          intro n hn he
          exact hnd.1 ((manifestPath_inj root g.1 n he) ▸ hn)
        show lookupManifest (runGalleries false now1 root
          (runGallery false now1 root g.1 g.2 fs store).fs
          (runGallery false now1 root g.1 g.2 fs store).store rest).store
          (manifestPath root g.1) = _
        rw [runGalleries_store_foreign false now1 root rest _ _ _ hforeign]
        show lookupManifest (storeSet store (manifestPath root g.1)
          ⟨(processList false now1 g.1 (manifestImagesAt store (manifestPath root g.1))
              fs g.2).2.1, now1, SIZES⟩) (manifestPath root g.1) = _
        rw [lookupManifest_storeSet_self]
        rw [processList_records now1 g.1 _ g.2 fs (hids g hg)]
      · intro img hmem hdisj
        have hkeys : ∀ k ∈ expectedKeys g.1 img.id, k.gal = g.1 ∧ k.img = img.id :=
          fun k hk => expectedKeys_gal_img _ _ k hk
        have hc1 : needs_processing (runGalleries false now1 root
            (runGallery false now1 root g.1 g.2 fs store).fs
            (runGallery false now1 root g.1 g.2 fs store).store rest).fs img.mtime
              (expectedKeys g.1 img.id) =
            needs_processing (runGallery false now1 root g.1 g.2 fs store).fs img.mtime
              (expectedKeys g.1 img.id) := by
          apply needs_processing_congr
          intro k hk
          apply runGalleries_fs_foreign
          rw [(hkeys k hk).1]
          exact hnd.1
        have hc2 : needs_processing (runGallery false now1 root g.1 g.2 fs store).fs
            img.mtime (expectedKeys g.1 img.id) =
            needs_processing (processList false now1 g.1
              (manifestImagesAt store (manifestPath root g.1)) fs g.2).1 img.mtime
              (expectedKeys g.1 img.id) := by
          apply needs_processing_congr
          intro k hk
          show fsLookup (clean_orphans (processList false now1 g.1
            (manifestImagesAt store (manifestPath root g.1)) fs g.2).1 g.1
            (g.2.map SrcImage.id)).1 k = _
          apply clean_orphans_fs_lookup
          left
          rw [(hkeys k hk).2]
          exact List.mem_map_of_mem SrcImage.id hmem
        show needs_processing (runGalleries false now1 root
          (runGallery false now1 root g.1 g.2 fs store).fs
          (runGallery false now1 root g.1 g.2 fs store).store rest).fs img.mtime
          (expectedKeys g.1 img.id) = false
        rw [hc1, hc2]
        exact processList_gate_false now1 g.1 _ false g.2 fs (hids g hg) (hmt g hg)
          img hmem hdisj
    · exact ih _ _ hnd.2 (fun g2 hm => hids g2 (List.mem_cons_of_mem _ hm))
        (fun g2 hm => hmt g2 (List.mem_cons_of_mem _ hm)) g hgr

/-- Second run: when every clean gallery entry is current and every
decodable image is fresh, the run changes no output file, processes
nothing, and rewrites each gallery's manifest with the carried
records and the new timestamp. -/
theorem runGalleries_run2 (now2 : Nat) (root : String) :
    ∀ (gs : List (String × List SrcImage)) (fs : OutFS) (store : ManifestStore),
      (gs.map Prod.fst).Nodup →
      (∀ g ∈ gs, (g.2.map SrcImage.id).Nodup) →
      (∀ g ∈ gs, ∀ e ∈ fs, e.1.gal = g.1 → e.1.img ∈ g.2.map SrcImage.id) →
      (∀ g ∈ gs, ∀ img ∈ g.2, img.decodable = true →
        needs_processing fs img.mtime (expectedKeys g.1 img.id) = false) →
      (runGalleries false now2 root fs store gs).fs = fs ∧
      (runGalleries false now2 root fs store gs).outs.countP isProcessed = 0 ∧
      ∀ g ∈ gs,
        lookupManifest (runGalleries false now2 root fs store gs).store
            (manifestPath root g.1) =
          some ⟨g.2.filterMap
              (contrib g.1 fs (manifestImagesAt store (manifestPath root g.1))),
            now2, SIZES⟩ := by
  intro gs
  induction gs with
  | nil =>
    intro fs store _ _ _ _
    exact ⟨rfl, rfl, fun g hg => absurd hg (List.not_mem_nil g)⟩
  | cons g0 rest ih =>
    intro fs store hnd hids hinv hf
    rw [List.map_cons, List.nodup_cons] at hnd
    have hf0 : ∀ img ∈ g0.2, img.decodable = true →
        needs_processing fs img.mtime (expectedKeys g0.1 img.id) = false :=
      hf g0 (List.mem_cons_self g0 rest)
    obtain ⟨hfs0, hcnt0⟩ := processList_inert now2 g0.1
      (manifestImagesAt store (manifestPath root g0.1)) g0.2 fs hf0
    have hclean : (clean_orphans fs g0.1 (g0.2.map SrcImage.id)).1 = fs := by
      show fs.filter (fun e => !(isOrphan g0.1 (g0.2.map SrcImage.id) e)) = fs
      apply List.filter_eq_self.mpr
      intro e hme
      by_cases hgal : e.1.gal = g0.1
      · have hval := hinv g0 (List.mem_cons_self g0 rest) e hme hgal
        simp [isOrphan, hgal, hval]
      · simp [isOrphan, hgal]
    have hrg_fs : (runGallery false now2 root g0.1 g0.2 fs store).fs = fs := by
      show (clean_orphans (processList false now2 g0.1
        (manifestImagesAt store (manifestPath root g0.1)) fs g0.2).1 g0.1
        (g0.2.map SrcImage.id)).1 = fs
      rw [hfs0, hclean]
    have hrest := ih fs (runGallery false now2 root g0.1 g0.2 fs store).store hnd.2
      (fun g hm => hids g (List.mem_cons_of_mem _ hm))
      (fun g hm => hinv g (List.mem_cons_of_mem _ hm))
      (fun g hm => hf g (List.mem_cons_of_mem _ hm))
    have hfs_all : (runGalleries false now2 root fs store (g0 :: rest)).fs = fs := by
      show (runGalleries false now2 root
        (runGallery false now2 root g0.1 g0.2 fs store).fs
        (runGallery false now2 root g0.1 g0.2 fs store).store rest).fs = fs
      rw [hrg_fs]
      exact hrest.1
    refine ⟨hfs_all, ?_, ?_⟩
    · show ((runGallery false now2 root g0.1 g0.2 fs store).outs ++
        (runGalleries false now2 root
          (runGallery false now2 root g0.1 g0.2 fs store).fs
          (runGallery false now2 root g0.1 g0.2 fs store).store rest).outs).countP
            isProcessed = 0
      rw [List.countP_append, hrg_fs]
      have h1 : (runGallery false now2 root g0.1 g0.2 fs store).outs.countP
          isProcessed = 0 := hcnt0
      rw [h1, hrest.2.1]
    · intro g hg
      rcases List.mem_cons.mp hg with heq | hgr
      · subst heq
        have hforeign : ∀ n ∈ rest.map Prod.fst,
            manifestPath root g.1 ≠ manifestPath root n := by
          intro n hn he
          exact hnd.1 ((manifestPath_inj root g.1 n he) ▸ hn)
        show lookupManifest (runGalleries false now2 root
          (runGallery false now2 root g.1 g.2 fs store).fs
          (runGallery false now2 root g.1 g.2 fs store).store rest).store
          (manifestPath root g.1) = _
        rw [runGalleries_store_foreign false now2 root rest _ _ _ hforeign]
        show lookupManifest (storeSet store (manifestPath root g.1)
          ⟨(processList false now2 g.1 (manifestImagesAt store (manifestPath root g.1))
              fs g.2).2.1, now2, SIZES⟩) (manifestPath root g.1) = _
        rw [lookupManifest_storeSet_self]
        rw [processList_records now2 g.1 _ g.2 fs (hids g hg)]
      · have hne : manifestPath root g.1 ≠ manifestPath root g0.1 := by
          intro he
          apply hnd.1
          rw [← manifestPath_inj root g.1 g0.1 he]
          exact List.mem_map_of_mem Prod.fst hgr
        have hold : manifestImagesAt
            (runGallery false now2 root g0.1 g0.2 fs store).store
            (manifestPath root g.1) =
            manifestImagesAt store (manifestPath root g.1) := by
          unfold manifestImagesAt
          rw [show (runGallery false now2 root g0.1 g0.2 fs store).store =
            storeSet store (manifestPath root g0.1)
              ⟨(processList false now2 g0.1
                  (manifestImagesAt store (manifestPath root g0.1)) fs g0.2).2.1,
                now2, SIZES⟩ from rfl]
          rw [lookupManifest_storeSet_ne store (manifestPath root g0.1) _ _ hne]
        have hmain := hrest.2.2 g hgr
        show lookupManifest (runGalleries false now2 root
          (runGallery false now2 root g0.1 g0.2 fs store).fs
          (runGallery false now2 root g0.1 g0.2 fs store).store rest).store
          (manifestPath root g.1) = _
        rw [hrg_fs, hmain, hold]

/-- A fresh image's contribution carries its old record forward. -/
theorem contrib_pos (gal : String) (gfs : OutFS) (oldRecs : List ImageRecord) (img : SrcImage)
    (h : needs_processing gfs img.mtime (expectedKeys gal img.id) = false) :
    contrib gal gfs oldRecs img = findRecord oldRecs img.id := by
  unfold contrib
  rw [if_pos h]

/-- A stale undecodable image contributes nothing. -/
theorem contrib_neg (gal : String) (gfs : OutFS) (oldRecs : List ImageRecord) (img : SrcImage)
    (h : ¬needs_processing gfs img.mtime (expectedKeys gal img.id) = false)
    (hd : img.decodable = false) :
    contrib gal gfs oldRecs img = none := by
  unfold contrib
  rw [if_neg h, if_neg (by simp [hd])]

/-- C3: with no source changes and force unset, a second whole-pipeline
run processes zero images, and each discovered gallery's manifest after
the second run matches the first run's manifest in image list and size
table, differing only in the generation timestamp. -/
theorem spec_C3 (root : String) (galleries : List (String × List SrcImage)) (fs0 : OutFS)
    (store0 : ManifestStore) (now1 now2 : Nat)
    (hgal : (galleries.map Prod.fst).Nodup)
    (hids : ∀ g ∈ galleries, (g.2.map SrcImage.id).Nodup)
    (hmt : ∀ g ∈ galleries, ∀ im ∈ g.2, im.mtime ≤ now1) :
    (summarize (runPipeline false now2 root galleries
        (runPipeline false now1 root galleries fs0 store0).fs
        (runPipeline false now1 root galleries fs0 store0).store).outs).processed = 0 ∧
    ∀ g ∈ galleries, ∃ m1 m2 : Manifest,
      lookupManifest (runPipeline false now1 root galleries fs0 store0).store
          (manifestPath root g.1) = some m1 ∧
      lookupManifest (runPipeline false now2 root galleries
          (runPipeline false now1 root galleries fs0 store0).fs
          (runPipeline false now1 root galleries fs0 store0).store).store
          (manifestPath root g.1) = some m2 ∧
      m2.images = m1.images ∧ m2.sizes = m1.sizes ∧
      m1.generated = now1 ∧ m2.generated = now2 := by
  have hnames : ∀ g ∈ galleries, g.1 ∈ galleries.map Prod.fst :=
    fun g hg => List.mem_map_of_mem Prod.fst hg
  have hrun1 := runGalleries_run1 now1 root galleries fs0 store0 hgal hids hmt
  have hstore_pres : ∀ g ∈ galleries,
      lookupManifest (runPipeline false now1 root galleries fs0 store0).store
        (manifestPath root g.1) =
      lookupManifest (runGalleries false now1 root fs0 store0 galleries).store
        (manifestPath root g.1) := by
    intro g hg
    apply lookupManifest_filter
    intro m
    apply List.any_eq_true.mpr
    exact ⟨g.1, hnames g hg, by simp⟩
  have hfs_pres : ∀ g ∈ galleries, ∀ img ∈ g.2, ∀ k ∈ expectedKeys g.1 img.id,
      fsLookup (runPipeline false now1 root galleries fs0 store0).fs k =
      fsLookup (runGalleries false now1 root fs0 store0 galleries).fs k := by
    intro g hg img hm k hk
    apply fsLookup_filter
    intro t
    have hkg := (expectedKeys_gal_img g.1 img.id k hk).1
    simp [hkg, hnames g hg]
  have hHF : ∀ g ∈ galleries, ∀ img ∈ g.2, img.decodable = true →
      needs_processing (runPipeline false now1 root galleries fs0 store0).fs img.mtime
        (expectedKeys g.1 img.id) = false := by
    intro g hg img hm hdec
    obtain ⟨fse, oldRecs, _, hfreshness⟩ := hrun1 g hg
    have h2 := hfreshness img hm (Or.inr hdec)
    have hcongr := needs_processing_congr
      (runPipeline false now1 root galleries fs0 store0).fs
      (runGalleries false now1 root fs0 store0 galleries).fs img.mtime
      (expectedKeys g.1 img.id) (fun k hk => hfs_pres g hg img hm k hk)
    rw [hcongr]
    exact h2
  have hINV : ∀ g ∈ galleries,
      ∀ e ∈ (runPipeline false now1 root galleries fs0 store0).fs,
      e.1.gal = g.1 → e.1.img ∈ g.2.map SrcImage.id := by
    intro g hg e he hgal2
    have he2 : e ∈ (runGalleries false now1 root fs0 store0 galleries).fs :=
      (List.mem_filter.mp he).1
    exact runGalleries_entry_valid false now1 root galleries fs0 store0 hgal g hg e
      he2 hgal2
  have hrun2 := runGalleries_run2 now2 root galleries
    (runPipeline false now1 root galleries fs0 store0).fs
    (runPipeline false now1 root galleries fs0 store0).store hgal hids hINV hHF
  constructor
  · show ((runGalleries false now2 root
      (runPipeline false now1 root galleries fs0 store0).fs
      (runPipeline false now1 root galleries fs0 store0).store galleries).outs).countP
        isProcessed = 0
    exact hrun2.2.1
  · intro g hg
    obtain ⟨fse, oldRecs1, hman1, hfresh1⟩ := hrun1 g hg
    have hm1 : lookupManifest (runPipeline false now1 root galleries fs0 store0).store
        (manifestPath root g.1) =
        some ⟨g.2.filterMap (contrib g.1 fse oldRecs1), now1, SIZES⟩ := by
      rw [hstore_pres g hg]
      exact hman1
    have hm2raw := hrun2.2.2 g hg
    have hstore_pres2 : lookupManifest (runPipeline false now2 root galleries
        (runPipeline false now1 root galleries fs0 store0).fs
        (runPipeline false now1 root galleries fs0 store0).store).store
        (manifestPath root g.1) =
        lookupManifest (runGalleries false now2 root
          (runPipeline false now1 root galleries fs0 store0).fs
          (runPipeline false now1 root galleries fs0 store0).store galleries).store
        (manifestPath root g.1) := by
      apply lookupManifest_filter
      intro m
      apply List.any_eq_true.mpr
      exact ⟨g.1, hnames g hg, by simp⟩
    have holdrecs : manifestImagesAt
        (runPipeline false now1 root galleries fs0 store0).store
        (manifestPath root g.1) = g.2.filterMap (contrib g.1 fse oldRecs1) := by
      unfold manifestImagesAt
      rw [hm1]
      rfl
    have hpointwise : ∀ img ∈ g.2,
        contrib g.1 (runPipeline false now1 root galleries fs0 store0).fs
          (g.2.filterMap (contrib g.1 fse oldRecs1)) img =
        contrib g.1 fse oldRecs1 img := by
      intro img hm
      by_cases hg2 : needs_processing (runPipeline false now1 root galleries fs0 store0).fs
          img.mtime (expectedKeys g.1 img.id) = false
      · rw [contrib_pos _ _ _ _ hg2]
        exact findRecord_filterMap (contrib g.1 fse oldRecs1)
          (fun im r h => contrib_id g.1 fse oldRecs1 im r h) g.2 (hids g hg) img hm
      · have hdec : img.decodable = false := by
          cases hdd : img.decodable
          · rfl
          · exact absurd (hHF g hg img hm hdd) hg2
        rw [contrib_neg _ _ _ _ hg2 hdec]
        symm
        by_cases hge : needs_processing fse img.mtime (expectedKeys g.1 img.id) = false
        · exfalso
          apply hg2
          have h2 := hfresh1 img hm (Or.inl hge)
          have hcongr := needs_processing_congr
            (runPipeline false now1 root galleries fs0 store0).fs
            (runGalleries false now1 root fs0 store0 galleries).fs img.mtime
            (expectedKeys g.1 img.id) (fun k hk => hfs_pres g hg img hm k hk)
          rw [hcongr]
          exact h2
        · exact contrib_neg _ _ _ _ hge hdec
    have himages : g.2.filterMap (contrib g.1
        (runPipeline false now1 root galleries fs0 store0).fs
        (g.2.filterMap (contrib g.1 fse oldRecs1))) =
        g.2.filterMap (contrib g.1 fse oldRecs1) :=
      List.filterMap_congr hpointwise
    refine ⟨⟨g.2.filterMap (contrib g.1 fse oldRecs1), now1, SIZES⟩,
      ⟨g.2.filterMap (contrib g.1 fse oldRecs1), now2, SIZES⟩, hm1, ?_, rfl, rfl, rfl, rfl⟩
    rw [hstore_pres2, hm2raw, holdrecs, himages]

/-- C3 witness: a concrete one-gallery source tree run twice from an
empty output tree — the second run processes nothing and the two
manifests agree except for the generation timestamp. -/
theorem spec_C3_witness :
    (summarize (runPipeline false 2 "assets/" [("g", [⟨"a", 0, 4, 3, true⟩])]
        (runPipeline false 1 "assets/" [("g", [⟨"a", 0, 4, 3, true⟩])] [] []).fs
        (runPipeline false 1 "assets/" [("g", [⟨"a", 0, 4, 3, true⟩])] [] []).store).outs).processed
      = 0 ∧
    ∀ g ∈ [(("g" : String), [SrcImage.mk "a" 0 4 3 true])], ∃ m1 m2 : Manifest,
      lookupManifest (runPipeline false 1 "assets/" [("g", [⟨"a", 0, 4, 3, true⟩])] [] []).store
          (manifestPath "assets/" g.1) = some m1 ∧
      lookupManifest (runPipeline false 2 "assets/" [("g", [⟨"a", 0, 4, 3, true⟩])]
          (runPipeline false 1 "assets/" [("g", [⟨"a", 0, 4, 3, true⟩])] [] []).fs
          (runPipeline false 1 "assets/" [("g", [⟨"a", 0, 4, 3, true⟩])] [] []).store).store
          (manifestPath "assets/" g.1) = some m2 ∧
      m2.images = m1.images ∧ m2.sizes = m1.sizes ∧
      m1.generated = 1 ∧ m2.generated = 2 :=
  spec_C3 "assets/" [("g", [⟨"a", 0, 4, 3, true⟩])] [] [] 1 2
    (by decide) (by decide) (by decide)

end PhotoFolio
